import Mathlib

/-!
# Verification of the global-rules synchronization server

Shallow embedding of the `GlobalRulesServer` implementation (src/index.ts):
the configuration loader `loadConfig`, the directory synchronizer
`copyGlobalRulesFiles`, and the two façade operations
`handleLoadGlobalRules` / `handleSaveGlobalRules`.

The filesystem is modelled as a tree of entries (regular files with byte
content, and directories with a named child list), and the `fs/promises`
calls used by the server (`access`, `mkdir {recursive}`, `readdir`, `stat`,
`copyFile`) are modelled as pure functions over that tree.  Fallible calls
return `Except String` carrying the error message used in the server's
error records.
-/

namespace GlobalMdc

/-- Byte content of a regular file. -/
abbrev Bytes := List Nat

/-- JavaScript's `s.startsWith(pre)` (character-level, kernel-evaluable). -/
def jsStartsWith (s pre : String) : Bool := pre.data.isPrefixOf s.data

/-- JavaScript's `s.trim()`: strip whitespace from both ends
(character-level, kernel-evaluable). -/
def jsTrim (s : String) : String :=
  ⟨((s.data.dropWhile Char.isWhitespace).reverse.dropWhile
      Char.isWhitespace).reverse⟩

/-- A filesystem entry: a regular file with its byte content, or a directory
with a list of named children (the `fs/promises` view used by the server). -/
inductive Entry : Type where
  | file (content : Bytes)
  | dir (children : List (String × Entry))

/-- A filesystem path, as the list of its segments. -/
abbrev Path := List String

/-- Look up a child by name in a directory's child list (first match). -/
def lookupChild : List (String × Entry) → String → Option Entry
  | [], _ => none
  | (m, e) :: rest, n => if m = n then some e else lookupChild rest n

/-- Replace the first child named `n` by `e` (or append it if absent). -/
def setChild : List (String × Entry) → String → Entry → List (String × Entry)
  | [], n, e => [(n, e)]
  | (m, e') :: rest, n, e =>
      if m = n then (n, e) :: rest else (m, e') :: setChild rest n e

/-- Resolve a path in the filesystem tree. -/
def lookup : Entry → Path → Option Entry
  | e, [] => some e
  | .file _, _ :: _ => none
  | .dir cs, n :: p =>
      match lookupChild cs n with
      | none => none
      | some e => lookup e p

/-- The byte content of an entry when it is a regular file. -/
def fileContent : Entry → Option Bytes
  | .file c => some c
  | .dir _ => none

/-- The byte content of the regular file at `p`, if any. -/
def lookupFile (fs : Entry) (p : Path) : Option Bytes :=
  (lookup fs p).bind fileContent

/-- `fs.stat`: resolve a path, failing with `ENOENT` if it does not exist. -/
def stat (fs : Entry) (p : Path) : Except String Entry :=
  match lookup fs p with
  | none => .error "ENOENT: no such file or directory"
  | some e => .ok e

/-- `stat.isFile()`. -/
def Entry.isFile : Entry → Bool
  | .file _ => true
  | .dir _ => false

/-- `fs.readdir`: the names of the immediate entries of a directory. -/
def readdir (fs : Entry) (p : Path) : Except String (List String) :=
  match lookup fs p with
  | none => .error "ENOENT: no such file or directory"
  | some (.file _) => .error "ENOTDIR: not a directory"
  | some (.dir cs) => .ok (cs.map Prod.fst)

/-- `fs.mkdir(p, { recursive: true })`: create the directory and any missing
ancestors; succeed silently if it already exists as a directory. -/
def mkdirRec : Entry → Path → Except String Entry
  | .dir cs, [] => .ok (.dir cs)
  | .file _, [] => .error "EEXIST: file already exists"
  | .file _, _ :: _ => .error "ENOTDIR: not a directory"
  | .dir cs, n :: p =>
      match mkdirRec ((lookupChild cs n).getD (.dir [])) p with
      | .error msg => .error msg
      | .ok child2 => .ok (.dir (setChild cs n child2))

/-- Write byte content at a path, overwriting an existing regular file of the
same name; fails if the destination is an existing directory or if an
intermediate component is missing or not a directory. -/
def writeFile : Entry → Path → Bytes → Except String Entry
  | _, [], _ => .error "EISDIR: illegal operation on a directory"
  | .file _, _ :: _, _ => .error "ENOTDIR: not a directory"
  | .dir cs, [n], c =>
      match lookupChild cs n with
      | some (.dir _) => .error "EISDIR: illegal operation on a directory"
      | _ => .ok (.dir (setChild cs n (.file c)))
  | .dir cs, n :: m :: p, c =>
      match lookupChild cs n with
      | none => .error "ENOENT: no such file or directory"
      | some child =>
          match writeFile child (m :: p) c with
          | .error msg => .error msg
          | .ok child2 => .ok (.dir (setChild cs n child2))

/-- `fs.copyFile(src, dst)`: copy the regular file at `src` to `dst`,
overwriting an existing file of that name. -/
def copyFile (fs : Entry) (src dst : Path) : Except String Entry :=
  match lookup fs src with
  | none => .error "ENOENT: no such file or directory"
  | some (.dir _) => .error "EISDIR: illegal operation on a directory"
  | some (.file c) => writeFile fs dst c

/-- The two error kinds of the server (`enum ErrorType`). -/
inductive ErrorType : Type where
  | CONFIG_PARSING_ERROR
  | OPERATION_ERROR
deriving DecidableEq, Repr

/-- One error record of a failed response (`{ type, message }`). -/
structure ErrorRecord : Type where
  type : ErrorType
  message : String
deriving DecidableEq, Repr

/-- The discriminated response union `GlobalRulesResponse =
SuccessResponse | FailedResponse`: a success carries no errors by shape, a
failure carries its error list. -/
inductive GlobalRulesResponse : Type where
  | success
  | failed (errors : List ErrorRecord)
deriving DecidableEq, Repr

/-- The error list carried by a response (`[]` for a success, which has no
`errors` field). -/
def errorsOf : GlobalRulesResponse → List ErrorRecord
  | .success => []
  | .failed errs => errs

/-- Whether a response is a success (`success: true`). -/
def isSuccess : GlobalRulesResponse → Bool
  | .success => true
  | .failed _ => false

/-- Render a path for use in error messages. -/
def pathToString : Path → String
  | [] => ""
  | [s] => s
  | s :: rest => s ++ "/" ++ pathToString rest

/-- One iteration of the copy loop of `copyGlobalRulesFiles`: stat the source
entry and, if it is a regular file, copy it to the target directory under the
same name.  A non-file entry is skipped, returning the filesystem unchanged. -/
def copyStep (fs : Entry) (sourceDir targetDir : Path) (file : String) :
    Except String Entry :=
  match stat fs (sourceDir ++ [file]) with
  | .error msg => .error msg
  | .ok st =>
      if st.isFile then copyFile fs (sourceDir ++ [file]) (targetDir ++ [file])
      else .ok fs

/-- The `for (const file of globalFiles)` loop of `copyGlobalRulesFiles`:
each per-file failure is caught, converted to an `OPERATION_ERROR` with
message `Failed to copy {file}: {detail}`, pushed onto the accumulating error
list, and does not stop processing of the remaining files. -/
def copyLoop (fs : Entry) (sourceDir targetDir : Path) :
    List String → Entry × List ErrorRecord
  | [] => (fs, [])
  | file :: rest =>
      match copyStep fs sourceDir targetDir file with
      | .ok fs2 => copyLoop fs2 sourceDir targetDir rest
      | .error msg =>
          let r := copyLoop fs sourceDir targetDir rest
          (r.1, ⟨.OPERATION_ERROR, "Failed to copy " ++ file ++ ": " ++ msg⟩ :: r.2)

/-- The directory synchronizer `copyGlobalRulesFiles(sourceDir, targetDir)`:
check the source directory exists, create the target directory recursively,
list the source, filter to names starting with `g-`, return success
immediately when no name matches, otherwise copy each match and aggregate
per-file errors.  Returns the final filesystem together with the response. -/
def copyGlobalRulesFiles (fs : Entry) (sourceDir targetDir : Path) :
    Entry × GlobalRulesResponse :=
  if (lookup fs sourceDir).isNone then
    (fs, .failed [⟨.OPERATION_ERROR,
      "Source directory does not exist: " ++ pathToString sourceDir⟩])
  else
    match mkdirRec fs targetDir with
    | .error msg => (fs, .failed [⟨.OPERATION_ERROR, msg⟩])
    | .ok fs1 =>
        match readdir fs1 sourceDir with
        | .error msg => (fs1, .failed [⟨.OPERATION_ERROR, msg⟩])
        | .ok files =>
            let globalFiles := files.filter (fun f => jsStartsWith f "g-")
            if globalFiles.isEmpty then (fs1, .success)
            else
              let r := copyLoop fs1 sourceDir targetDir globalFiles
              if r.2.isEmpty then (r.1, .success) else (r.1, .failed r.2)

/-- The parsed shape of `config.json` (`type Config`): one optional field. -/
structure Config : Type where
  globalRulesSourceDir : Option String
deriving DecidableEq, Repr

/-- The state of the external configuration store at
`path.resolve(dirname, '../config.json')`: absent, present but not valid
JSON (with the parse error's message), or parsed with the optional
`globalRulesSourceDir` field. -/
inductive ConfigStore : Type where
  | missing
  | malformed (errMsg : String)
  | parsed (globalRulesSourceDir : Option String)
deriving DecidableEq, Repr

/-- Models `path.resolve(dirname, '../config.json')` (the concrete absolute
value is installation-dependent). -/
def configPath : String := "../config.json"

/-- Interpret a configured directory string as a path (split on `/`,
character-level, kernel-evaluable). -/
def toPath (s : String) : Path := (s.data.splitOn '/').map (fun cs => ⟨cs⟩)

/-- The configuration loader `loadConfig()`: fail with a
`CONFIG_PARSING_ERROR` when the store is missing, malformed, when
`globalRulesSourceDir` is absent or blank after trimming, or when the
directory it names does not exist; otherwise return the parsed config. -/
def loadConfig (fs : Entry) (store : ConfigStore) : Except ErrorRecord Config :=
  match store with
  | .missing =>
      .error ⟨.CONFIG_PARSING_ERROR,
        "Configuration file " ++ configPath ++ " not found"⟩
  | .malformed msg =>
      .error ⟨.CONFIG_PARSING_ERROR, "Failed to parse config.json: " ++ msg⟩
  | .parsed dirOpt =>
      match dirOpt with
      | none =>
          .error ⟨.CONFIG_PARSING_ERROR,
            "globalRulesSourceDir is not set or empty in config.json"⟩
      | some d =>
          if jsTrim d = "" then
            .error ⟨.CONFIG_PARSING_ERROR,
              "globalRulesSourceDir is not set or empty in config.json"⟩
          else if (lookup fs (toPath d)).isNone then
            .error ⟨.CONFIG_PARSING_ERROR,
              "Global rules directory does not exist: " ++ d⟩
          else .ok ⟨some d⟩

/-- The per-process state of `GlobalRulesServer`: its `config` field. -/
structure ServerState : Type where
  config : Config
deriving DecidableEq, Repr

/-- The constructor's initialization `private config: Config = {}`. -/
def initialServerState : ServerState := ⟨⟨none⟩⟩

/-- `handleLoadGlobalRules({ path })`: load the configuration (short-circuit
on its failure with a single-error failed response and no filesystem change),
then synchronize from the configured global directory into
`{path}/.cursor/rules`.  Returns the server state, the final filesystem and
the response. -/
def handleLoadGlobalRules (st : ServerState) (fs : Entry) (store : ConfigStore)
    (reqPath : String) : ServerState × Entry × GlobalRulesResponse :=
  match loadConfig fs store with
  | .error e => (st, fs, .failed [e])
  | .ok cfg =>
      let sourceRulesDir := toPath cfg.globalRulesSourceDir.get!
      let targetRulesDir := toPath reqPath ++ [".cursor", "rules"]
      let r := copyGlobalRulesFiles fs sourceRulesDir targetRulesDir
      (st, r.1, r.2)

/-- `handleSaveGlobalRules({ path })`: same pipeline with the directory roles
swapped — source is `{path}/.cursor/rules`, target is the configured global
directory. -/
def handleSaveGlobalRules (st : ServerState) (fs : Entry) (store : ConfigStore)
    (reqPath : String) : ServerState × Entry × GlobalRulesResponse :=
  match loadConfig fs store with
  | .error e => (st, fs, .failed [e])
  | .ok cfg =>
      let sourceRulesDir := toPath reqPath ++ [".cursor", "rules"]
      let targetRulesDir := toPath cfg.globalRulesSourceDir.get!
      let r := copyGlobalRulesFiles fs sourceRulesDir targetRulesDir
      (st, r.1, r.2)

/-- Every component along `p` exists and is a directory (the state in which
`fs.mkdir(p, { recursive: true })` is a no-op). -/
def allDirs : Entry → Path → Bool
  | .dir _, [] => true
  | .file _, _ => false
  | .dir cs, n :: p =>
      match lookupChild cs n with
      | none => false
      | some child => allDirs child p

/-- Concrete fixture: a global directory with two matching rule files and one
non-matching file, next to an empty project directory. -/
def fsA : Entry := .dir
  [("global", .dir
      [("g-a.mdc", .file [65]),
       ("g-b.mdc", .file [66]),
       ("other.mdc", .file [67])]),
   ("proj", .dir [])]

/-- The filesystem `fsA` after `mkdir -p proj/.cursor/rules`. -/
def fsA1 : Entry := .dir
  [("global", .dir
      [("g-a.mdc", .file [65]),
       ("g-b.mdc", .file [66]),
       ("other.mdc", .file [67])]),
   ("proj", .dir [(".cursor", .dir [("rules", .dir [])])])]

/-- Concrete fixture: the target already contains a directory named like a
matching rule file, so copying that one file fails while its sibling
succeeds. -/
def fsB : Entry := .dir
  [("global", .dir
      [("g-a.mdc", .file [65]),
       ("g-b.mdc", .file [66])]),
   ("proj", .dir
      [(".cursor", .dir [("rules", .dir [("g-a.mdc", .dir [])])])])]

/-- Concrete fixture: the source contains a subdirectory whose name matches
the `g-` prefix, which the synchronizer must skip silently. -/
def fsC : Entry := .dir
  [("global", .dir
      [("g-sub", .dir []),
       ("g-a.mdc", .file [65])]),
   ("proj", .dir [])]

/-- Concrete fixture: the target already contains a `g-`-named file,
`g-z.mdc`, that has no counterpart among the source's matching names, so a
synchronization must leave it untouched. -/
def fsD : Entry := .dir
  [("global", .dir [("g-a.mdc", .file [65])]),
   ("proj", .dir
      [(".cursor", .dir [("rules", .dir [("g-z.mdc", .file [90])])])])]

/-! ## Basic lemmas about child lists and path resolution -/

theorem lookupChild_setChild_self (cs : List (String × Entry)) (n : String)
    (e : Entry) : lookupChild (setChild cs n e) n = some e := by
  induction cs with
  | nil => simp [setChild, lookupChild]
  | cons hd t ih =>
      obtain ⟨m, e'⟩ := hd
      by_cases h : m = n
      · simp [setChild, h, lookupChild]
      · simp [setChild, h, lookupChild, ih]

theorem lookupChild_setChild_ne (cs : List (String × Entry)) (n a : String)
    (e : Entry) (h : a ≠ n) :
    lookupChild (setChild cs n e) a = lookupChild cs a := by
  induction cs with
  | nil => simp [setChild, lookupChild, Ne.symm h]
  | cons hd t ih =>
      obtain ⟨m, e'⟩ := hd
      by_cases hm : m = n
      · subst hm
        simp [setChild, lookupChild, Ne.symm h]
      · by_cases ha : m = a
        · simp [setChild, hm, lookupChild, ha, h]
        · simp [setChild, hm, lookupChild, ha, ih]

theorem setChild_self (cs : List (String × Entry)) (n : String) (e : Entry)
    (h : lookupChild cs n = some e) : setChild cs n e = cs := by
  induction cs with
  | nil => simp [lookupChild] at h
  | cons hd t ih =>
      obtain ⟨m, e'⟩ := hd
      by_cases hm : m = n
      · subst hm
        simp [lookupChild] at h
        simp [setChild, h]
      · simp [lookupChild, hm] at h
        simp [setChild, hm, ih h]

theorem lookupChild_none_not_mem (cs : List (String × Entry)) (n : String)
    (h : lookupChild cs n = none) : n ∉ cs.map Prod.fst := by
  induction cs with
  | nil => simp
  | cons hd t ih =>
      obtain ⟨m, e'⟩ := hd
      by_cases hm : m = n
      · simp [lookupChild, hm] at h
      · simp [lookupChild, hm] at h
        simp only [List.map_cons, List.mem_cons]
        rintro (hc | hc)
        · exact hm hc.symm
        · exact ih h hc

theorem lookupChild_mem (cs : List (String × Entry)) (n : String) (e : Entry)
    (h : lookupChild cs n = some e) : n ∈ cs.map Prod.fst := by
  induction cs with
  | nil => simp [lookupChild] at h
  | cons hd t ih =>
      obtain ⟨m, e'⟩ := hd
      by_cases hm : m = n
      · simp [hm]
      · simp [lookupChild, hm] at h
        simp [ih h]

theorem mem_lookupChild_isSome (cs : List (String × Entry)) (n : String)
    (h : n ∈ cs.map Prod.fst) : (lookupChild cs n).isSome := by
  cases hl : lookupChild cs n with
  | none => exact absurd h (lookupChild_none_not_mem cs n hl)
  | some e => rfl

theorem lookup_dir_cons (cs : List (String × Entry)) (n : String) (p : Path) :
    lookup (.dir cs) (n :: p) = (lookupChild cs n).bind (fun e => lookup e p) := by
  cases h : lookupChild cs n <;> simp [lookup, h]

theorem lookup_append (fs : Entry) (p q : Path) :
    lookup fs (p ++ q) = (lookup fs p).bind (fun e => lookup e q) := by
  induction p generalizing fs with
  | nil => simp [lookup]
  | cons n p' ih =>
      cases fs with
      | file c => simp [lookup]
      | dir cs =>
          rw [List.cons_append, lookup_dir_cons, lookup_dir_cons]
          cases lookupChild cs n with
          | none => simp
          | some e => simp [ih]

theorem lookupFile_dir_cons (cs : List (String × Entry)) (n : String)
    (p : Path) :
    lookupFile (.dir cs) (n :: p) =
      (lookupChild cs n).bind (fun e => lookupFile e p) := by
  unfold lookupFile
  rw [lookup_dir_cons]
  cases lookupChild cs n <;> simp

theorem lookupFile_dir_nil (cs : List (String × Entry)) :
    lookupFile (.dir cs) [] = none := rfl

theorem lookupFile_file_nil (c : Bytes) : lookupFile (.file c) [] = some c := rfl

theorem lookupFile_file_cons (c : Bytes) (n : String) (p : Path) :
    lookupFile (.file c) (n :: p) = none := rfl

theorem lookupFile_empty_dir (q : Path) : lookupFile (.dir []) q = none := by
  cases q with
  | nil => rfl
  | cons a q' => rw [lookupFile_dir_cons]; rfl

theorem lookupFile_append_singleton (fs : Entry) (p : Path) (f : String)
    (cs : List (String × Entry)) (h : lookup fs p = some (.dir cs)) :
    lookupFile fs (p ++ [f]) = (lookupChild cs f).bind fileContent := by
  unfold lookupFile
  rw [lookup_append, h]
  simp [lookup_dir_cons]
  cases lookupChild cs f <;> simp [lookup]

theorem append_singleton_inj {p q : Path} {a b : String}
    (h : p ++ [a] = q ++ [b]) : p = q ∧ a = b := by
  have := List.append_inj' h rfl
  exact ⟨this.1, by simpa using this.2⟩

/-! ## Lemmas about `writeFile` -/

theorem writeFile_singleton_inv {cs : List (String × Entry)} {n : String}
    {c : Bytes} {fs2 : Entry} (h : writeFile (.dir cs) [n] c = .ok fs2) :
    fs2 = .dir (setChild cs n (.file c)) ∧
      ∀ cs0, lookupChild cs n ≠ some (.dir cs0) := by
  cases hc : lookupChild cs n with
  | none =>
      simp [writeFile, hc] at h
      exact ⟨h.symm, by simp [hc]⟩
  | some e =>
      cases e with
      | file c0 =>
          simp [writeFile, hc] at h
          exact ⟨h.symm, by simp [hc]⟩
      | dir cs0 => simp [writeFile, hc] at h

theorem writeFile_cons_inv {cs : List (String × Entry)} {n m : String}
    {p : Path} {c : Bytes} {fs2 : Entry}
    (h : writeFile (.dir cs) (n :: m :: p) c = .ok fs2) :
    ∃ child child2, lookupChild cs n = some child ∧
      writeFile child (m :: p) c = .ok child2 ∧
      fs2 = .dir (setChild cs n child2) := by
  cases hc : lookupChild cs n with
  | none => simp [writeFile, hc] at h
  | some child =>
      cases hw : writeFile child (m :: p) c with
      | error msg => simp [writeFile, hc, hw] at h
      | ok child2 =>
          simp [writeFile, hc, hw] at h
          exact ⟨child, child2, rfl, hw, h.symm⟩

theorem writeFile_lookupFile_self {fs fs2 : Entry} {dst : Path} {c : Bytes}
    (h : writeFile fs dst c = .ok fs2) : lookupFile fs2 dst = some c := by
  induction dst generalizing fs fs2 with
  | nil => cases fs <;> simp [writeFile] at h
  | cons n p ih =>
      cases fs with
      | file c0 => simp [writeFile] at h
      | dir cs =>
          cases p with
          | nil =>
              obtain ⟨rfl, -⟩ := writeFile_singleton_inv h
              rw [lookupFile_dir_cons, lookupChild_setChild_self]
              rfl
          | cons m p' =>
              obtain ⟨child, child2, hc, hw, rfl⟩ := writeFile_cons_inv h
              rw [lookupFile_dir_cons, lookupChild_setChild_self]
              simpa using ih hw

theorem writeFile_lookupFile_other {fs fs2 : Entry} {dst : Path} {c : Bytes}
    (h : writeFile fs dst c = .ok fs2) (q : Path) (hq : q ≠ dst) :
    lookupFile fs2 q = lookupFile fs q := by
  induction dst generalizing fs fs2 q with
  | nil => cases fs <;> simp [writeFile] at h
  | cons n p ih =>
      cases fs with
      | file c0 => simp [writeFile] at h
      | dir cs =>
          cases p with
          | nil =>
              obtain ⟨rfl, hnotdir⟩ := writeFile_singleton_inv h
              cases q with
              | nil => simp [lookupFile_dir_nil]
              | cons a q' =>
                  by_cases ha : a = n
                  · subst ha
                    have hq' : q' ≠ [] := by
                      intro h0; exact hq (by rw [h0])
                    rw [lookupFile_dir_cons, lookupFile_dir_cons,
                        lookupChild_setChild_self]
                    cases q' with
                    | nil => exact absurd rfl hq'
                    | cons b q'' =>
                        simp only [Option.some_bind, lookupFile_file_cons]
                        cases hc : lookupChild cs a with
                        | none => simp
                        | some e =>
                            cases e with
                            | file c0 => simp [lookupFile_file_cons]
                            | dir cs0 => exact absurd hc (hnotdir cs0)
                  · rw [lookupFile_dir_cons, lookupFile_dir_cons,
                        lookupChild_setChild_ne _ _ _ _ ha]
          | cons m p' =>
              obtain ⟨child, child2, hc, hw, rfl⟩ := writeFile_cons_inv h
              cases q with
              | nil => simp [lookupFile_dir_nil]
              | cons a q' =>
                  by_cases ha : a = n
                  · subst ha
                    rw [lookupFile_dir_cons, lookupFile_dir_cons,
                        lookupChild_setChild_self, hc]
                    have hq' : q' ≠ m :: p' := by
                      intro h0; exact hq (by rw [h0])
                    simp only [Option.some_bind]
                    exact ih hw q' hq'
                  · rw [lookupFile_dir_cons, lookupFile_dir_cons,
                        lookupChild_setChild_ne _ _ _ _ ha]

theorem writeFile_self {fs : Entry} {n : String} {p : Path} {c : Bytes}
    (h : lookupFile fs (n :: p) = some c) : writeFile fs (n :: p) c = .ok fs := by
  induction p generalizing fs n with
  | nil =>
      cases fs with
      | file c0 => simp [lookupFile_file_cons] at h
      | dir cs =>
          rw [lookupFile_dir_cons] at h
          cases hc : lookupChild cs n with
          | none => simp [hc] at h
          | some e =>
              cases e with
              | dir cs0 => simp [hc, lookupFile_dir_nil] at h
              | file c0 =>
                  simp [hc, lookupFile_file_nil] at h
                  subst h
                  simp [writeFile, hc, setChild_self cs n _ hc]
  | cons m p' ih =>
      cases fs with
      | file c0 => simp [lookupFile_file_cons] at h
      | dir cs =>
          rw [lookupFile_dir_cons] at h
          cases hc : lookupChild cs n with
          | none => simp [hc] at h
          | some child =>
              simp only [hc, Option.some_bind] at h
              simp [writeFile, hc, ih h, setChild_self cs n child hc]

theorem writeFile_preserves_isSome {fs fs2 : Entry} {dst : Path} {c : Bytes}
    (h : writeFile fs dst c = .ok fs2) (q : Path)
    (hq : (lookup fs q).isSome) : (lookup fs2 q).isSome := by
  induction dst generalizing fs fs2 q with
  | nil => cases fs <;> simp [writeFile] at h
  | cons n p ih =>
      cases fs with
      | file c0 => simp [writeFile] at h
      | dir cs =>
          cases p with
          | nil =>
              obtain ⟨rfl, hnotdir⟩ := writeFile_singleton_inv h
              cases q with
              | nil => simp [lookup]
              | cons a q' =>
                  by_cases ha : a = n
                  · subst ha
                    rw [lookup_dir_cons] at hq
                    rw [lookup_dir_cons, lookupChild_setChild_self]
                    cases hc : lookupChild cs a with
                    | none => rw [hc] at hq; simp at hq
                    | some e =>
                        rw [hc] at hq
                        simp only [Option.some_bind] at hq ⊢
                        cases e with
                        | dir cs0 => exact absurd hc (hnotdir cs0)
                        | file c0 =>
                            cases q' with
                            | nil => simp [lookup]
                            | cons b q'' => simp [lookup] at hq
                  · rw [lookup_dir_cons] at hq
                    rw [lookup_dir_cons, lookupChild_setChild_ne _ _ _ _ ha]
                    exact hq
          | cons m p' =>
              obtain ⟨child, child2, hc, hw, rfl⟩ := writeFile_cons_inv h
              cases q with
              | nil => simp [lookup]
              | cons a q' =>
                  by_cases ha : a = n
                  · subst ha
                    rw [lookup_dir_cons, hc] at hq
                    rw [lookup_dir_cons, lookupChild_setChild_self]
                    simp only [Option.some_bind] at hq ⊢
                    exact ih hw q' hq
                  · rw [lookup_dir_cons] at hq
                    rw [lookup_dir_cons, lookupChild_setChild_ne _ _ _ _ ha]
                    exact hq

theorem setChild_map_fst_of_isSome (cs : List (String × Entry)) (n : String)
    (e : Entry) (h : (lookupChild cs n).isSome) :
    (setChild cs n e).map Prod.fst = cs.map Prod.fst := by
  induction cs with
  | nil => simp [lookupChild] at h
  | cons hd t ih =>
      obtain ⟨m, e'⟩ := hd
      by_cases hm : m = n
      · subst hm; simp [setChild]
      · simp [lookupChild, hm] at h
        simp [setChild, hm, ih h]

theorem setChild_map_fst_of_none (cs : List (String × Entry)) (n : String)
    (e : Entry) (h : lookupChild cs n = none) :
    (setChild cs n e).map Prod.fst = cs.map Prod.fst ++ [n] := by
  induction cs with
  | nil => simp [setChild]
  | cons hd t ih =>
      obtain ⟨m, e'⟩ := hd
      by_cases hm : m = n
      · simp [lookupChild, hm] at h
      · simp [lookupChild, hm] at h
        simp [setChild, hm, ih h]

theorem writeFile_dir_shape {fs fs2 : Entry} {dst : Path} {c : Bytes}
    (h : writeFile fs dst c = .ok fs2) (q : Path) (cs0 : List (String × Entry))
    (hq : lookup fs q = some (.dir cs0)) :
    ∃ cs2, lookup fs2 q = some (.dir cs2) ∧
      (cs2.map Prod.fst = cs0.map Prod.fst ∨
        ∃ f, dst = q ++ [f] ∧ f ∉ cs0.map Prod.fst ∧
          cs2.map Prod.fst = cs0.map Prod.fst ++ [f]) := by
  induction dst generalizing fs fs2 q cs0 with
  | nil => cases fs <;> simp [writeFile] at h
  | cons n p ih =>
      cases fs with
      | file c0 => simp [writeFile] at h
      | dir cs =>
          cases p with
          | nil =>
              obtain ⟨rfl, hnotdir⟩ := writeFile_singleton_inv h
              cases q with
              | nil =>
                  simp only [lookup, Option.some.injEq, Entry.dir.injEq] at hq
                  subst hq
                  refine ⟨setChild cs n (.file c), by simp [lookup], ?_⟩
                  cases hc : lookupChild cs n with
                  | none =>
                      exact Or.inr ⟨n, rfl, lookupChild_none_not_mem cs n hc,
                        setChild_map_fst_of_none cs n _ hc⟩
                  | some e =>
                      exact Or.inl (setChild_map_fst_of_isSome cs n _
                        (by rw [hc]; rfl))
              | cons a q' =>
                  by_cases ha : a = n
                  · subst ha
                    rw [lookup_dir_cons] at hq
                    cases hc : lookupChild cs a with
                    | none => rw [hc] at hq; simp at hq
                    | some e =>
                        rw [hc] at hq
                        simp only [Option.some_bind] at hq
                        cases e with
                        | dir cs1 => exact absurd hc (hnotdir cs1)
                        | file c0 =>
                            cases q' with
                            | nil => simp [lookup] at hq
                            | cons b q'' => simp [lookup] at hq
                  · rw [lookup_dir_cons] at hq
                    refine ⟨cs0, ?_, Or.inl rfl⟩
                    rw [lookup_dir_cons, lookupChild_setChild_ne _ _ _ _ ha]
                    exact hq
          | cons m p' =>
              obtain ⟨child, child2, hc, hw, rfl⟩ := writeFile_cons_inv h
              cases q with
              | nil =>
                  simp only [lookup, Option.some.injEq, Entry.dir.injEq] at hq
                  subst hq
                  refine ⟨setChild cs n child2, by simp [lookup], Or.inl ?_⟩
                  exact setChild_map_fst_of_isSome cs n _ (by rw [hc]; rfl)
              | cons a q' =>
                  by_cases ha : a = n
                  · subst ha
                    rw [lookup_dir_cons, hc] at hq
                    simp only [Option.some_bind] at hq
                    obtain ⟨cs2, hl2, hdisj⟩ := ih hw q' cs0 hq
                    refine ⟨cs2, ?_, ?_⟩
                    · rw [lookup_dir_cons, lookupChild_setChild_self]
                      simpa using hl2
                    · rcases hdisj with hL | ⟨f, hf1, hf2, hf3⟩
                      · exact Or.inl hL
                      · exact Or.inr ⟨f, by rw [List.cons_append, ← hf1], hf2, hf3⟩
                  · rw [lookup_dir_cons] at hq
                    refine ⟨cs0, ?_, Or.inl rfl⟩
                    rw [lookup_dir_cons, lookupChild_setChild_ne _ _ _ _ ha]
                    exact hq

/-! ## Lemmas about `mkdirRec` and `allDirs` -/

theorem mkdirRec_cons_inv {cs : List (String × Entry)} {n : String} {p : Path}
    {fs2 : Entry} (h : mkdirRec (.dir cs) (n :: p) = .ok fs2) :
    ∃ child2, mkdirRec ((lookupChild cs n).getD (.dir [])) p = .ok child2 ∧
      fs2 = .dir (setChild cs n child2) := by
  cases hm : mkdirRec ((lookupChild cs n).getD (.dir [])) p with
  | error msg => simp [mkdirRec, hm] at h
  | ok child2 =>
      simp [mkdirRec, hm] at h
      exact ⟨child2, rfl, h.symm⟩

theorem mkdirRec_lookupFile {fs fs2 : Entry} {p : Path}
    (h : mkdirRec fs p = .ok fs2) (q : Path) :
    lookupFile fs2 q = lookupFile fs q := by
  induction p generalizing fs fs2 q with
  | nil =>
      cases fs with
      | file c => simp [mkdirRec] at h
      | dir cs => simp [mkdirRec] at h; rw [← h]
  | cons n p' ih =>
      cases fs with
      | file c => simp [mkdirRec] at h
      | dir cs =>
          obtain ⟨child2, hm, rfl⟩ := mkdirRec_cons_inv h
          cases q with
          | nil => simp [lookupFile_dir_nil]
          | cons a q' =>
              by_cases ha : a = n
              · subst ha
                rw [lookupFile_dir_cons, lookupFile_dir_cons,
                    lookupChild_setChild_self]
                cases hc : lookupChild cs a with
                | none =>
                    rw [hc] at hm
                    simp only [Option.some_bind, Option.none_bind]
                    rw [ih hm q']
                    simp [lookupFile_empty_dir]
                | some child =>
                    rw [hc] at hm
                    simp only [Option.some_bind]
                    exact ih hm q'
              · rw [lookupFile_dir_cons, lookupFile_dir_cons,
                    lookupChild_setChild_ne _ _ _ _ ha]

theorem mkdirRec_preserves_isSome {fs fs2 : Entry} {p : Path}
    (h : mkdirRec fs p = .ok fs2) (q : Path)
    (hq : (lookup fs q).isSome) : (lookup fs2 q).isSome := by
  induction p generalizing fs fs2 q with
  | nil =>
      cases fs with
      | file c => simp [mkdirRec] at h
      | dir cs => simp [mkdirRec] at h; rw [← h]; exact hq
  | cons n p' ih =>
      cases fs with
      | file c => simp [mkdirRec] at h
      | dir cs =>
          obtain ⟨child2, hm, rfl⟩ := mkdirRec_cons_inv h
          cases q with
          | nil => simp [lookup]
          | cons a q' =>
              by_cases ha : a = n
              · subst ha
                rw [lookup_dir_cons] at hq
                rw [lookup_dir_cons, lookupChild_setChild_self]
                cases hc : lookupChild cs a with
                | none => rw [hc] at hq; simp at hq
                | some child =>
                    rw [hc] at hq hm
                    simp only [Option.some_bind] at hq ⊢
                    exact ih hm q' hq
              · rw [lookup_dir_cons] at hq
                rw [lookup_dir_cons, lookupChild_setChild_ne _ _ _ _ ha]
                exact hq

theorem mkdirRec_allDirs {fs fs2 : Entry} {p : Path}
    (h : mkdirRec fs p = .ok fs2) : allDirs fs2 p = true := by
  induction p generalizing fs fs2 with
  | nil =>
      cases fs with
      | file c => simp [mkdirRec] at h
      | dir cs => simp [mkdirRec] at h; rw [← h]; rfl
  | cons n p' ih =>
      cases fs with
      | file c => simp [mkdirRec] at h
      | dir cs =>
          obtain ⟨child2, hm, rfl⟩ := mkdirRec_cons_inv h
          simp [allDirs, lookupChild_setChild_self, ih hm]

theorem allDirs_mkdirRec_id {fs : Entry} {p : Path}
    (h : allDirs fs p = true) : mkdirRec fs p = .ok fs := by
  induction p generalizing fs with
  | nil =>
      cases fs with
      | file c => simp [allDirs] at h
      | dir cs => rfl
  | cons n p' ih =>
      cases fs with
      | file c => simp [allDirs] at h
      | dir cs =>
          cases hc : lookupChild cs n with
          | none => simp [allDirs, hc] at h
          | some child =>
              simp only [allDirs, hc] at h
              simp [mkdirRec, hc, ih h, setChild_self cs n child hc]

theorem allDirs_lookup {fs : Entry} {p : Path} (h : allDirs fs p = true) :
    ∃ cs, lookup fs p = some (.dir cs) := by
  induction p generalizing fs with
  | nil =>
      cases fs with
      | file c => simp [allDirs] at h
      | dir cs => exact ⟨cs, rfl⟩
  | cons n p' ih =>
      cases fs with
      | file c => simp [allDirs] at h
      | dir cs =>
          cases hc : lookupChild cs n with
          | none => simp [allDirs, hc] at h
          | some child =>
              simp only [allDirs, hc] at h
              obtain ⟨cs2, hl⟩ := ih h
              exact ⟨cs2, by rw [lookup_dir_cons, hc, Option.some_bind, hl]⟩

theorem writeFile_preserves_allDirs {fs fs2 : Entry} {q : Path} {f : String}
    {c : Bytes} (h : writeFile fs (q ++ [f]) c = .ok fs2)
    (hd : allDirs fs q = true) : allDirs fs2 q = true := by
  induction q generalizing fs fs2 with
  | nil =>
      cases fs with
      | file c0 => simp [allDirs] at hd
      | dir cs =>
          obtain ⟨rfl, -⟩ := writeFile_singleton_inv (by simpa using h)
          rfl
  | cons n q' ih =>
      cases fs with
      | file c0 => simp [allDirs] at hd
      | dir cs =>
          have hcons : ∃ m p', q' ++ [f] = m :: p' := by
            cases q' with
            | nil => exact ⟨f, [], rfl⟩
            | cons x xs => exact ⟨x, xs ++ [f], rfl⟩
          obtain ⟨m, p', hq⟩ := hcons
          rw [List.cons_append, hq] at h
          obtain ⟨child, child2, hc, hw, rfl⟩ := writeFile_cons_inv h
          simp only [allDirs, hc] at hd
          rw [← hq] at hw
          simp [allDirs, lookupChild_setChild_self, ih hw hd]

/-! ## Lemmas about `copyStep` and `copyLoop` -/

theorem copyLoop_cons_ok {fs fs2 : Entry} {sd td : Path} {f : String}
    (rest : List String) (h : copyStep fs sd td f = .ok fs2) :
    copyLoop fs sd td (f :: rest) = copyLoop fs2 sd td rest := by
  simp [copyLoop, h]

theorem copyLoop_cons_error {fs : Entry} {sd td : Path} {f msg : String}
    (rest : List String) (h : copyStep fs sd td f = .error msg) :
    copyLoop fs sd td (f :: rest) =
      ((copyLoop fs sd td rest).1,
        ⟨.OPERATION_ERROR, "Failed to copy " ++ f ++ ": " ++ msg⟩ ::
          (copyLoop fs sd td rest).2) := by
  simp [copyLoop, h]

theorem copyStep_ok_cases {fs fs2 : Entry} {sd td : Path} {f : String}
    (h : copyStep fs sd td f = .ok fs2) :
    (∃ cs0, lookup fs (sd ++ [f]) = some (.dir cs0) ∧ fs2 = fs) ∨
      (∃ c, lookup fs (sd ++ [f]) = some (.file c) ∧
        writeFile fs (td ++ [f]) c = .ok fs2) := by
  cases hl : lookup fs (sd ++ [f]) with
  | none => simp [copyStep, stat, hl] at h
  | some e =>
      cases e with
      | dir cs0 =>
          simp [copyStep, stat, hl, Entry.isFile] at h
          exact Or.inl ⟨cs0, rfl, h.symm⟩
      | file c =>
          simp [copyStep, stat, hl, Entry.isFile, copyFile] at h
          exact Or.inr ⟨c, rfl, h⟩

theorem copyStep_skip {fs : Entry} {sd td : Path} {f : String}
    {cs0 : List (String × Entry)}
    (h : lookup fs (sd ++ [f]) = some (.dir cs0)) :
    copyStep fs sd td f = .ok fs := by
  simp [copyStep, stat, h, Entry.isFile]

theorem copyLoop_frame (sd td : Path) (L : List String) :
    ∀ (fs : Entry) (q : Path), (∀ f ∈ L, q ≠ td ++ [f]) →
      lookupFile (copyLoop fs sd td L).1 q = lookupFile fs q := by
  induction L with
  | nil => intro fs q _; rfl
  | cons f rest ih =>
      intro fs q hq
      cases hs : copyStep fs sd td f with
      | error msg =>
          rw [copyLoop_cons_error rest hs]
          exact ih fs q (fun g hg => hq g (List.mem_cons_of_mem f hg))
      | ok fs2 =>
          rw [copyLoop_cons_ok rest hs]
          rw [ih fs2 q (fun g hg => hq g (List.mem_cons_of_mem f hg))]
          rcases copyStep_ok_cases hs with ⟨cs0, -, rfl⟩ | ⟨c, -, hw⟩
          · rfl
          · exact writeFile_lookupFile_other hw q (hq f (List.mem_cons_self f rest))

theorem copyLoop_preserves_isSome (sd td : Path) (L : List String) :
    ∀ (fs : Entry) (q : Path), (lookup fs q).isSome →
      (lookup (copyLoop fs sd td L).1 q).isSome := by
  induction L with
  | nil => intro fs q hq; exact hq
  | cons f rest ih =>
      intro fs q hq
      cases hs : copyStep fs sd td f with
      | error msg => rw [copyLoop_cons_error rest hs]; exact ih fs q hq
      | ok fs2 =>
          rw [copyLoop_cons_ok rest hs]
          refine ih fs2 q ?_
          rcases copyStep_ok_cases hs with ⟨cs0, -, rfl⟩ | ⟨c, -, hw⟩
          · exact hq
          · exact writeFile_preserves_isSome hw q hq

theorem copyLoop_never_removes (sd td : Path) (L : List String) :
    ∀ (fs : Entry) (q : Path) (c : Bytes), lookupFile fs q = some c →
      ∃ c2, lookupFile (copyLoop fs sd td L).1 q = some c2 := by
  induction L with
  | nil => intro fs q c hq; exact ⟨c, hq⟩
  | cons f rest ih =>
      intro fs q c hq
      cases hs : copyStep fs sd td f with
      | error msg => rw [copyLoop_cons_error rest hs]; exact ih fs q c hq
      | ok fs2 =>
          rw [copyLoop_cons_ok rest hs]
          rcases copyStep_ok_cases hs with ⟨cs0, -, rfl⟩ | ⟨c0, -, hw⟩
          · exact ih fs2 q c hq
          · by_cases hqd : q = td ++ [f]
            · subst hqd
              exact ih fs2 _ c0 (writeFile_lookupFile_self hw)
            · exact ih fs2 q c
                (by rw [writeFile_lookupFile_other hw q hqd]; exact hq)

theorem copyLoop_dirNames (sd td : Path) (L : List String) :
    ∀ (fs : Entry) (cs0 : List (String × Entry)),
      lookup fs sd = some (.dir cs0) →
      (sd = td → ∀ f ∈ L, f ∈ cs0.map Prod.fst) →
      ∃ cs2, lookup (copyLoop fs sd td L).1 sd = some (.dir cs2) ∧
        cs2.map Prod.fst = cs0.map Prod.fst := by
  induction L with
  | nil => intro fs cs0 hl _; exact ⟨cs0, hl, rfl⟩
  | cons f rest ih =>
      intro fs cs0 hl hmem
      cases hs : copyStep fs sd td f with
      | error msg =>
          rw [copyLoop_cons_error rest hs]
          exact ih fs cs0 hl
            (fun he g hg => hmem he g (List.mem_cons_of_mem f hg))
      | ok fs2 =>
          rw [copyLoop_cons_ok rest hs]
          rcases copyStep_ok_cases hs with ⟨cs1, -, rfl⟩ | ⟨c0, -, hw⟩
          · exact ih fs2 cs0 hl
              (fun he g hg => hmem he g (List.mem_cons_of_mem f hg))
          · obtain ⟨cs2, hl2, hdisj⟩ := writeFile_dir_shape hw sd cs0 hl
            rcases hdisj with hn | ⟨g, hg1, hg2, hg3⟩
            · obtain ⟨cs3, hl3, hn3⟩ := ih fs2 cs2 hl2
                (fun he x hx => by
                  rw [hn]; exact hmem he x (List.mem_cons_of_mem f hx))
              exact ⟨cs3, hl3, by rw [hn3, hn]⟩
            · obtain ⟨hst, hfg⟩ := append_singleton_inj hg1
              subst hfg
              exact absurd (hmem hst.symm f (List.mem_cons_self f rest)) hg2

theorem copyLoop_fixed (sd td : Path) (L : List String) (fs : Entry)
    (h : ∀ f ∈ L, copyStep fs sd td f = .ok fs) :
    copyLoop fs sd td L = (fs, []) := by
  induction L with
  | nil => rfl
  | cons f rest ih =>
      rw [copyLoop_cons_ok rest (h f (List.mem_cons_self f rest))]
      exact ih (fun g hg => h g (List.mem_cons_of_mem f hg))

theorem copyLoop_allDirs (sd td : Path) (L : List String) :
    ∀ (fs : Entry), allDirs fs td = true →
      allDirs (copyLoop fs sd td L).1 td = true := by
  induction L with
  | nil => intro fs hd; exact hd
  | cons f rest ih =>
      intro fs hd
      cases hs : copyStep fs sd td f with
      | error msg => rw [copyLoop_cons_error rest hs]; exact ih fs hd
      | ok fs2 =>
          rw [copyLoop_cons_ok rest hs]
          rcases copyStep_ok_cases hs with ⟨cs0, -, rfl⟩ | ⟨c0, -, hw⟩
          · exact ih fs2 hd
          · exact ih fs2 (writeFile_preserves_allDirs hw hd)

theorem copyLoop_copies (sd td : Path) (L : List String) (hnd : L.Nodup) :
    ∀ (fs : Entry), (copyLoop fs sd td L).2 = [] →
      ∀ f ∈ L, ∀ c, lookupFile (copyLoop fs sd td L).1 (sd ++ [f]) = some c →
        lookupFile (copyLoop fs sd td L).1 (td ++ [f]) = some c := by
  induction L with
  | nil => intro fs _ f hf; simp at hf
  | cons f rest ih =>
      rw [List.nodup_cons] at hnd
      obtain ⟨hfn, hndr⟩ := hnd
      intro fs herr g hg c hc
      cases hs : copyStep fs sd td f with
      | error msg =>
          rw [copyLoop_cons_error rest hs] at herr
          simp at herr
      | ok fs2 =>
          rw [copyLoop_cons_ok rest hs] at herr hc ⊢
          rcases List.mem_cons.mp hg with rfl | hgr
          · have hne : ∀ x ∈ rest, sd ++ [g] ≠ td ++ [x] := by
              intro x hx heq
              obtain ⟨-, hgx⟩ := append_singleton_inj heq
              exact hfn (hgx ▸ hx)
            have hneT : ∀ x ∈ rest, td ++ [g] ≠ td ++ [x] := by
              intro x hx heq
              obtain ⟨-, hgx⟩ := append_singleton_inj heq
              exact hfn (hgx ▸ hx)
            rcases copyStep_ok_cases hs with ⟨cs0, hld, rfl⟩ | ⟨c0, hlf, hw⟩
            · rw [copyLoop_frame sd td rest fs2 _ hne] at hc
              unfold lookupFile at hc
              rw [hld] at hc
              simp [fileContent] at hc
            · have h1 : lookupFile fs2 (td ++ [g]) = some c0 :=
                writeFile_lookupFile_self hw
              have h2 : lookupFile (copyLoop fs2 sd td rest).1 (td ++ [g]) =
                  some c0 := by
                rw [copyLoop_frame sd td rest fs2 _ hneT]; exact h1
              have h3 : lookupFile (copyLoop fs2 sd td rest).1 (sd ++ [g]) =
                  some c0 := by
                rw [copyLoop_frame sd td rest fs2 _ hne]
                by_cases hsdtd : sd ++ [g] = td ++ [g]
                · rw [hsdtd]; exact h1
                · rw [writeFile_lookupFile_other hw _ hsdtd]
                  unfold lookupFile
                  rw [hlf]
                  rfl
              rw [h3] at hc
              obtain rfl : c0 = c := Option.some.inj hc
              exact h2
          · exact ih hndr fs2 herr g hgr c hc

/-! ## Lemmas about `loadConfig`, the handlers and response shapes -/

theorem loadConfig_error_type {fs : Entry} {store : ConfigStore}
    {e : ErrorRecord} (h : loadConfig fs store = .error e) :
    e.type = .CONFIG_PARSING_ERROR := by
  cases store with
  | missing => simp [loadConfig] at h; rw [← h]
  | malformed m => simp [loadConfig] at h; rw [← h]
  | parsed dirOpt =>
      cases dirOpt with
      | none => simp [loadConfig] at h; rw [← h]
      | some d =>
          by_cases ht : jsTrim d = ""
          · simp [loadConfig, ht] at h; rw [← h]
          · by_cases hl : (lookup fs (toPath d)).isNone
            · simp [loadConfig, ht, hl] at h; rw [← h]
            · simp [loadConfig, ht, hl] at h

theorem loadConfig_ok_inv {fs : Entry} {store : ConfigStore} {cfg : Config}
    (h : loadConfig fs store = .ok cfg) :
    ∃ d, store = .parsed (some d) ∧ cfg = ⟨some d⟩ ∧ jsTrim d ≠ "" ∧
      (lookup fs (toPath d)).isSome := by
  cases store with
  | missing => simp [loadConfig] at h
  | malformed m => simp [loadConfig] at h
  | parsed dirOpt =>
      cases dirOpt with
      | none => simp [loadConfig] at h
      | some d =>
          by_cases ht : jsTrim d = ""
          · simp [loadConfig, ht] at h
          · by_cases hl : (lookup fs (toPath d)).isNone
            · simp [loadConfig, ht, hl] at h
            · simp [loadConfig, ht, hl] at h
              refine ⟨d, rfl, h.symm, ht, ?_⟩
              cases hx : lookup fs (toPath d) with
              | none => rw [hx] at hl; simp at hl
              | some e => rfl

theorem loadConfig_ok_of_checks {fs : Entry} {d : String}
    (ht : jsTrim d ≠ "") (hl : (lookup fs (toPath d)).isSome) :
    loadConfig fs (.parsed (some d)) = .ok ⟨some d⟩ := by
  have hnn : (lookup fs (toPath d)).isNone = false := by
    cases hx : lookup fs (toPath d) with
    | none => rw [hx] at hl; simp at hl
    | some e => rfl
  simp [loadConfig, ht, hnn]

theorem handleLoad_eq_error {st : ServerState} {fs : Entry}
    {store : ConfigStore} {p : String} {e : ErrorRecord}
    (h : loadConfig fs store = .error e) :
    handleLoadGlobalRules st fs store p = (st, fs, .failed [e]) := by
  unfold handleLoadGlobalRules
  rw [h]

theorem handleSave_eq_error {st : ServerState} {fs : Entry}
    {store : ConfigStore} {p : String} {e : ErrorRecord}
    (h : loadConfig fs store = .error e) :
    handleSaveGlobalRules st fs store p = (st, fs, .failed [e]) := by
  unfold handleSaveGlobalRules
  rw [h]

theorem handleLoad_eq_ok {st : ServerState} {fs : Entry} {store : ConfigStore}
    {p : String} {cfg : Config} (h : loadConfig fs store = .ok cfg) :
    handleLoadGlobalRules st fs store p =
      (st, (copyGlobalRulesFiles fs (toPath cfg.globalRulesSourceDir.get!)
          (toPath p ++ [".cursor", "rules"])).1,
        (copyGlobalRulesFiles fs (toPath cfg.globalRulesSourceDir.get!)
          (toPath p ++ [".cursor", "rules"])).2) := by
  unfold handleLoadGlobalRules
  rw [h]

theorem handleSave_eq_ok {st : ServerState} {fs : Entry} {store : ConfigStore}
    {p : String} {cfg : Config} (h : loadConfig fs store = .ok cfg) :
    handleSaveGlobalRules st fs store p =
      (st, (copyGlobalRulesFiles fs (toPath p ++ [".cursor", "rules"])
          (toPath cfg.globalRulesSourceDir.get!)).1,
        (copyGlobalRulesFiles fs (toPath p ++ [".cursor", "rules"])
          (toPath cfg.globalRulesSourceDir.get!)).2) := by
  unfold handleSaveGlobalRules
  rw [h]

theorem copy_failed_nonempty {fs : Entry} {sd td : Path}
    {errs : List ErrorRecord}
    (h : (copyGlobalRulesFiles fs sd td).2 = .failed errs) : errs ≠ [] := by
  cases hx : lookup fs sd with
  | none =>
      simp [copyGlobalRulesFiles, hx] at h
      subst h; simp
  | some e =>
      cases hmk : mkdirRec fs td with
      | error msg =>
          simp [copyGlobalRulesFiles, hx, hmk] at h
          subst h; simp
      | ok fs1 =>
          cases hrd : readdir fs1 sd with
          | error msg =>
              simp [copyGlobalRulesFiles, hx, hmk, hrd] at h
              subst h; simp
          | ok files =>
              by_cases hfil :
                  (files.filter (fun f => jsStartsWith f "g-")).isEmpty
              · simp [copyGlobalRulesFiles, hx, hmk, hrd, hfil] at h
              · simp [copyGlobalRulesFiles, hx, hmk, hrd, hfil] at h
                cases herr :
                    (copyLoop fs1 sd td
                      (files.filter (fun f => jsStartsWith f "g-"))).2 with
                | nil => rw [herr] at h; simp at h
                | cons e0 es =>
                    rw [herr] at h
                    simp at h
                    subst h; simp

theorem copy_success_inv {fs fs' : Entry} {sd td : Path}
    (h : copyGlobalRulesFiles fs sd td = (fs', .success)) :
    ∃ fs1 files, (lookup fs sd).isSome ∧ mkdirRec fs td = .ok fs1 ∧
      readdir fs1 sd = .ok files ∧
      ((files.filter (fun f => jsStartsWith f "g-") = [] ∧ fs' = fs1) ∨
        copyLoop fs1 sd td (files.filter (fun f => jsStartsWith f "g-")) =
          (fs', [])) := by
  cases hx : lookup fs sd with
  | none => simp [copyGlobalRulesFiles, hx] at h
  | some e =>
      cases hmk : mkdirRec fs td with
      | error msg => simp [copyGlobalRulesFiles, hx, hmk] at h
      | ok fs1 =>
          cases hrd : readdir fs1 sd with
          | error msg => simp [copyGlobalRulesFiles, hx, hmk, hrd] at h
          | ok files =>
              refine ⟨fs1, files, rfl, rfl, hrd, ?_⟩
              by_cases hfil :
                  (files.filter (fun f => jsStartsWith f "g-")).isEmpty
              · simp [copyGlobalRulesFiles, hx, hmk, hrd, hfil] at h
                exact Or.inl ⟨List.isEmpty_iff.mp hfil, h.symm⟩
              · simp [copyGlobalRulesFiles, hx, hmk, hrd, hfil] at h
                cases herr :
                    (copyLoop fs1 sd td
                      (files.filter (fun f => jsStartsWith f "g-"))).2 with
                | nil =>
                    rw [herr] at h
                    simp at h
                    exact Or.inr (Prod.ext h herr)
                | cons e0 es =>
                    rw [herr] at h
                    simp at h

theorem readdir_ok_inv {fs : Entry} {p : Path} {files : List String}
    (h : readdir fs p = .ok files) :
    ∃ cs, lookup fs p = some (.dir cs) ∧ files = cs.map Prod.fst := by
  unfold readdir at h
  cases hx : lookup fs p with
  | none => rw [hx] at h; simp at h
  | some e =>
      cases e with
      | file c => rw [hx] at h; simp at h
      | dir cs =>
          rw [hx] at h
          simp at h
          exact ⟨cs, rfl, h.symm⟩

theorem lookup_append_singleton {fs : Entry} {p : Path} {f : String}
    {cs : List (String × Entry)} (h : lookup fs p = some (.dir cs)) :
    lookup fs (p ++ [f]) = lookupChild cs f := by
  rw [lookup_append, h]
  cases hc : lookupChild cs f <;> simp [lookup_dir_cons, hc, lookup]

theorem writeFile_self_append {fs : Entry} {q : Path} {f : String} {c : Bytes}
    (h : lookupFile fs (q ++ [f]) = some c) :
    writeFile fs (q ++ [f]) c = .ok fs := by
  cases q with
  | nil => exact writeFile_self h
  | cons x xs =>
      rw [List.cons_append] at h ⊢
      exact writeFile_self h

theorem lookup_dir_allDirs {fs : Entry} {p : Path}
    {cs : List (String × Entry)} (h : lookup fs p = some (.dir cs)) :
    allDirs fs p = true := by
  induction p generalizing fs with
  | nil =>
      cases fs with
      | file c => simp [lookup] at h
      | dir cs0 => rfl
  | cons n p' ih =>
      cases fs with
      | file c => simp [lookup] at h
      | dir cs0 =>
          rw [lookup_dir_cons] at h
          cases hc : lookupChild cs0 n with
          | none => rw [hc] at h; simp at h
          | some child =>
              rw [hc] at h
              simp only [Option.some_bind] at h
              simp [allDirs, hc, ih h]

theorem copyLoop_same_dir (sd : Path) (L : List String) :
    ∀ fs : Entry, (copyLoop fs sd sd L).1 = fs := by
  induction L with
  | nil => intro fs; rfl
  | cons f rest ih =>
      intro fs
      cases hs : copyStep fs sd sd f with
      | error msg => rw [copyLoop_cons_error rest hs]; exact ih fs
      | ok fs2 =>
          rw [copyLoop_cons_ok rest hs]
          rcases copyStep_ok_cases hs with ⟨cs0, -, rfl⟩ | ⟨c, hlf, hw⟩
          · exact ih fs2
          · have hself : writeFile fs (sd ++ [f]) c = .ok fs :=
              writeFile_self_append (by rw [lookupFile, hlf]; rfl)
            rw [hw] at hself
            obtain rfl := Except.ok.inj hself
            exact ih fs2

theorem copy_preserves_isSome (fs : Entry) (sd td : Path) (q : Path)
    (hq : (lookup fs q).isSome) :
    (lookup (copyGlobalRulesFiles fs sd td).1 q).isSome := by
  cases hx : lookup fs sd with
  | none => simpa [copyGlobalRulesFiles, hx] using hq
  | some e =>
      cases hmk : mkdirRec fs td with
      | error msg => simpa [copyGlobalRulesFiles, hx, hmk] using hq
      | ok fs1 =>
          have h1 := mkdirRec_preserves_isSome hmk q hq
          cases hrd : readdir fs1 sd with
          | error msg => simpa [copyGlobalRulesFiles, hx, hmk, hrd] using h1
          | ok files =>
              by_cases hfil :
                  (files.filter (fun f => jsStartsWith f "g-")).isEmpty
              · simpa [copyGlobalRulesFiles, hx, hmk, hrd, hfil] using h1
              · have h2 := copyLoop_preserves_isSome sd td
                  (files.filter (fun f => jsStartsWith f "g-")) fs1 q h1
                by_cases he : (copyLoop fs1 sd td
                    (files.filter (fun f => jsStartsWith f "g-"))).2.isEmpty
                · simpa [copyGlobalRulesFiles, hx, hmk, hrd, hfil, he] using h2
                · simpa [copyGlobalRulesFiles, hx, hmk, hrd, hfil, he] using h2

theorem copy_result_frame (fs : Entry) (sd td : Path) (q : Path)
    (hq : ∀ f, jsStartsWith f "g-" = true → q ≠ td ++ [f]) :
    lookupFile (copyGlobalRulesFiles fs sd td).1 q = lookupFile fs q := by
  cases hx : lookup fs sd with
  | none => simp [copyGlobalRulesFiles, hx]
  | some e =>
      cases hmk : mkdirRec fs td with
      | error msg => simp [copyGlobalRulesFiles, hx, hmk]
      | ok fs1 =>
          have h1 := mkdirRec_lookupFile hmk q
          cases hrd : readdir fs1 sd with
          | error msg => simpa [copyGlobalRulesFiles, hx, hmk, hrd] using h1
          | ok files =>
              by_cases hfil :
                  (files.filter (fun f => jsStartsWith f "g-")).isEmpty
              · simpa [copyGlobalRulesFiles, hx, hmk, hrd, hfil] using h1
              · have h2 : lookupFile (copyLoop fs1 sd td
                    (files.filter (fun f => jsStartsWith f "g-"))).1 q =
                      lookupFile fs1 q := by
                  refine copyLoop_frame sd td _ fs1 q ?_
                  intro g hg
                  exact hq g (List.mem_filter.mp hg).2
                by_cases he : (copyLoop fs1 sd td
                    (files.filter (fun f => jsStartsWith f "g-"))).2.isEmpty
                · simpa [copyGlobalRulesFiles, hx, hmk, hrd, hfil, he, h1]
                    using h2
                · simpa [copyGlobalRulesFiles, hx, hmk, hrd, hfil, he, h1]
                    using h2

theorem copy_never_removes (fs : Entry) (sd td : Path) (q : Path) (c : Bytes)
    (hq : lookupFile fs q = some c) :
    ∃ c2, lookupFile (copyGlobalRulesFiles fs sd td).1 q = some c2 := by
  cases hx : lookup fs sd with
  | none => exact ⟨c, by simpa [copyGlobalRulesFiles, hx] using hq⟩
  | some e =>
      cases hmk : mkdirRec fs td with
      | error msg => exact ⟨c, by simpa [copyGlobalRulesFiles, hx, hmk] using hq⟩
      | ok fs1 =>
          have h1 : lookupFile fs1 q = some c := by
            rw [mkdirRec_lookupFile hmk q]; exact hq
          cases hrd : readdir fs1 sd with
          | error msg =>
              exact ⟨c, by simpa [copyGlobalRulesFiles, hx, hmk, hrd] using h1⟩
          | ok files =>
              by_cases hfil :
                  (files.filter (fun f => jsStartsWith f "g-")).isEmpty
              · exact ⟨c, by
                  simpa [copyGlobalRulesFiles, hx, hmk, hrd, hfil] using h1⟩
              · obtain ⟨c2, h2⟩ := copyLoop_never_removes sd td
                  (files.filter (fun f => jsStartsWith f "g-")) fs1 q c h1
                by_cases he : (copyLoop fs1 sd td
                    (files.filter (fun f => jsStartsWith f "g-"))).2.isEmpty
                · exact ⟨c2, by
                    simpa [copyGlobalRulesFiles, hx, hmk, hrd, hfil, he] using h2⟩
                · exact ⟨c2, by
                    simpa [copyGlobalRulesFiles, hx, hmk, hrd, hfil, he] using h2⟩

/-! ## Claim theorems -/

/-- Claim C4: for every synchronization call whose source directory does not
exist, the result is `success:false` with exactly one `OPERATION_ERROR` whose
message is `Source directory does not exist: {sourceDir}`, and no target-side
mutation occurs: the filesystem is returned unchanged, so the target directory
is not created and no file is written. -/
theorem C4_missing_source (fs : Entry) (sd td : Path)
    (h : lookup fs sd = none) :
    copyGlobalRulesFiles fs sd td =
      (fs, .failed [⟨.OPERATION_ERROR,
        "Source directory does not exist: " ++ pathToString sd⟩]) := by
  simp [copyGlobalRulesFiles, h]

/-- Witness for C4 at a concrete input: synchronizing from the non-existent
directory `nope` fails with the single expected message and leaves the
filesystem unchanged. -/
theorem C4_witness :
    copyGlobalRulesFiles fsA ["nope"] ["proj"] =
      (fsA, .failed [⟨.OPERATION_ERROR,
        "Source directory does not exist: nope"⟩]) :=
  C4_missing_source fsA ["nope"] ["proj"] rfl

/-- Claim C5: every operation result returned by the synchronizer and by both
façade operations satisfies the response invariant: a failure result
(`success:false`) always carries a non-empty error sequence, and a success
result (`success:true`) never carries errors. -/
theorem C5_response_invariant (st : ServerState) (fs : Entry)
    (store : ConfigStore) (p : String) (sd td : Path) :
    (∀ errs, (copyGlobalRulesFiles fs sd td).2 = .failed errs → errs ≠ []) ∧
    (∀ errs, (handleLoadGlobalRules st fs store p).2.2 = .failed errs →
      errs ≠ []) ∧
    (∀ errs, (handleSaveGlobalRules st fs store p).2.2 = .failed errs →
      errs ≠ []) ∧
    (∀ r : GlobalRulesResponse, isSuccess r = true → errorsOf r = []) := by
  refine ⟨fun errs h => copy_failed_nonempty h, ?_, ?_, ?_⟩
  · intro errs h
    cases hlc : loadConfig fs store with
    | error e =>
        rw [handleLoad_eq_error hlc] at h
        simp at h
        subst h
        simp
    | ok cfg =>
        rw [handleLoad_eq_ok hlc] at h
        exact copy_failed_nonempty h
  · intro errs h
    cases hlc : loadConfig fs store with
    | error e =>
        rw [handleSave_eq_error hlc] at h
        simp at h
        subst h
        simp
    | ok cfg =>
        rw [handleSave_eq_ok hlc] at h
        exact copy_failed_nonempty h
  · intro r hr
    cases r with
    | success => rfl
    | failed errs => simp [isSuccess] at hr

/-- Witness for C5 at a concrete input: a partially failing run on `fsB`
returns a failed response whose error list is the expected non-empty
singleton. -/
theorem C5_witness :
    (copyGlobalRulesFiles fsB ["global"] ["proj", ".cursor", "rules"]).2 =
      .failed [⟨.OPERATION_ERROR,
        "Failed to copy g-a.mdc: EISDIR: illegal operation on a directory"⟩] ∧
    ([⟨ErrorType.OPERATION_ERROR,
        "Failed to copy g-a.mdc: EISDIR: illegal operation on a directory"⟩] :
      List ErrorRecord) ≠ [] :=
  ⟨by rfl,
    (C5_response_invariant initialServerState fsB .missing "proj" ["global"]
      ["proj", ".cursor", "rules"]).1 _ (by rfl)⟩

/-- Claim C3: for every configuration store that is missing, malformed,
missing the `globalRulesSourceDir` field, blank after trimming, or naming a
non-existent directory, both `loadGlobalRules` and `saveGlobalRules` return
failure with exactly one error of type `CONFIG_PARSING_ERROR` (never mixed
with operation errors), and the directory-synchronization step is not
invoked: the filesystem is returned unchanged. -/
theorem C3_config_error_short_circuit (st : ServerState) (fs : Entry)
    (store : ConfigStore) (p : String)
    (h : store = .missing ∨ (∃ m, store = .malformed m) ∨
      store = .parsed none ∨
      (∃ d, store = .parsed (some d) ∧ jsTrim d = "") ∨
      (∃ d, store = .parsed (some d) ∧ lookup fs (toPath d) = none)) :
    ∃ e, e.type = .CONFIG_PARSING_ERROR ∧
      handleLoadGlobalRules st fs store p = (st, fs, .failed [e]) ∧
      handleSaveGlobalRules st fs store p = (st, fs, .failed [e]) := by
  have herr : ∃ e, loadConfig fs store = .error e := by
    rcases h with rfl | ⟨m, rfl⟩ | rfl | ⟨d, rfl, ht⟩ | ⟨d, rfl, hl⟩
    · exact ⟨_, rfl⟩
    · exact ⟨_, rfl⟩
    · exact ⟨_, rfl⟩
    · refine ⟨⟨.CONFIG_PARSING_ERROR,
        "globalRulesSourceDir is not set or empty in config.json"⟩, ?_⟩
      simp [loadConfig, ht]
    · by_cases ht : jsTrim d = ""
      · refine ⟨⟨.CONFIG_PARSING_ERROR,
          "globalRulesSourceDir is not set or empty in config.json"⟩, ?_⟩
        simp [loadConfig, ht]
      · refine ⟨⟨.CONFIG_PARSING_ERROR,
          "Global rules directory does not exist: " ++ d⟩, ?_⟩
        simp [loadConfig, ht, hl]
  obtain ⟨e, he⟩ := herr
  exact ⟨e, loadConfig_error_type he, handleLoad_eq_error he,
    handleSave_eq_error he⟩

/-- Witness for C3 at a concrete input: with a missing configuration store
both operations fail with one configuration error and do not touch the
filesystem. -/
theorem C3_witness :
    ∃ e, e.type = .CONFIG_PARSING_ERROR ∧
      handleLoadGlobalRules initialServerState fsA .missing "proj" =
        (initialServerState, fsA, .failed [e]) ∧
      handleSaveGlobalRules initialServerState fsA .missing "proj" =
        (initialServerState, fsA, .failed [e]) :=
  C3_config_error_short_circuit initialServerState fsA .missing "proj"
    (Or.inl rfl)

/-- Claim C6: for every existing source directory whose listing contains no
entry with prefix `g-` (empty or all non-matching), the synchronization
returns `success:true` immediately, the target directory is created if
absent, and no files are copied into it (every file content in the
filesystem is unchanged). -/
theorem C6_no_matches_success (fs fs1 : Entry) (sd td : Path)
    (files : List String)
    (hsrc : (lookup fs sd).isSome)
    (hmk : mkdirRec fs td = .ok fs1)
    (hrd : readdir fs1 sd = .ok files)
    (hfil : files.filter (fun f => jsStartsWith f "g-") = []) :
    copyGlobalRulesFiles fs sd td = (fs1, .success) ∧
      (∃ cs, lookup fs1 td = some (.dir cs)) ∧
      (∀ q, lookupFile fs1 q = lookupFile fs q) := by
  refine ⟨?_, allDirs_lookup (mkdirRec_allDirs hmk),
    fun q => mkdirRec_lookupFile hmk q⟩
  cases hx : lookup fs sd with
  | none => rw [hx] at hsrc; simp at hsrc
  | some e => simp [copyGlobalRulesFiles, hx, hmk, hrd, hfil]

/-- Witness for C6 at a concrete input: synchronizing out of the empty
directory `proj` succeeds and copies nothing. -/
theorem C6_witness :
    copyGlobalRulesFiles fsA ["proj"] ["proj"] = (fsA, .success) ∧
      ∃ cs, lookup fsA ["proj"] = some (.dir cs) :=
  ⟨(C6_no_matches_success fsA fsA ["proj"] ["proj"] [] rfl rfl rfl rfl).1,
    (C6_no_matches_success fsA fsA ["proj"] ["proj"] [] rfl rfl rfl rfl).2.1⟩

/-- Claim C9: a source entry whose name matches the `g-` prefix but whose
stat shows it is not a regular file is skipped silently: the loop iteration
neither copies anything nor records an error (it is the identity on the loop
state), and the operation can still return `success:true`, as on the
concrete fixture `fsC` whose source contains the matching subdirectory
`g-sub`. -/
theorem C9_skips_non_files :
    (∀ (fs : Entry) (sd td : Path) (f : String) (cs : List (String × Entry))
        (rest : List String), lookup fs (sd ++ [f]) = some (.dir cs) →
        copyLoop fs sd td (f :: rest) = copyLoop fs sd td rest) ∧
      lookup fsC ["global", "g-sub"] = some (.dir []) ∧
      copyGlobalRulesFiles fsC ["global"] ["proj", ".cursor", "rules"] =
        ((copyGlobalRulesFiles fsC ["global"] ["proj", ".cursor", "rules"]).1,
          .success) := by
  refine ⟨?_, rfl, rfl⟩
  intro fs sd td f cs rest h
  rw [copyLoop_cons_ok rest (copyStep_skip h)]

/-- Witness for C9 at a concrete input: the loop iteration for the matching
subdirectory `g-sub` of `fsC` is the identity. -/
theorem C9_witness :
    copyLoop fsC ["global"] ["x"] ["g-sub"] =
      copyLoop fsC ["global"] ["x"] [] :=
  C9_skips_non_files.1 fsC ["global"] ["x"] "g-sub" [] [] rfl

/-- Claim C1: a failure while stat-ing or copying one matching file is
caught, converted into an `OPERATION_ERROR` with message
`Failed to copy {name}: {detail}`, prepended to the errors of the remaining
iterations (so the full list is in processing order), and does not stop
processing of the remaining matching files; and after all matches are
attempted, `copyGlobalRulesFiles` returns failure carrying the full ordered
error list of the loop if any errors accumulated, and success otherwise. -/
theorem C1_partial_failure_batch (sd td : Path) :
    (∀ (fs : Entry) (f : String) (rest : List String) (msg : String),
      copyStep fs sd td f = .error msg →
      copyLoop fs sd td (f :: rest) =
        ((copyLoop fs sd td rest).1,
          ⟨.OPERATION_ERROR, "Failed to copy " ++ f ++ ": " ++ msg⟩ ::
            (copyLoop fs sd td rest).2)) ∧
    (∀ (fs fs1 : Entry) (files : List String),
      (lookup fs sd).isSome →
      mkdirRec fs td = .ok fs1 →
      readdir fs1 sd = .ok files →
      files.filter (fun f => jsStartsWith f "g-") ≠ [] →
      copyGlobalRulesFiles fs sd td =
        ((copyLoop fs1 sd td (files.filter (fun f => jsStartsWith f "g-"))).1,
          if (copyLoop fs1 sd td
              (files.filter (fun f => jsStartsWith f "g-"))).2 = []
          then GlobalRulesResponse.success
          else .failed (copyLoop fs1 sd td
            (files.filter (fun f => jsStartsWith f "g-"))).2)) := by
  constructor
  · intro fs f rest msg h
    exact copyLoop_cons_error rest h
  · intro fs fs1 files hsrc hmk hrd hfil
    cases hx : lookup fs sd with
    | none => rw [hx] at hsrc; simp at hsrc
    | some e =>
        have hfil2 :
            (files.filter (fun f => jsStartsWith f "g-")).isEmpty = false := by
          cases hempty : files.filter (fun f => jsStartsWith f "g-") with
          | nil => exact absurd hempty hfil
          | cons a as => rfl
        by_cases herr : (copyLoop fs1 sd td
            (files.filter (fun f => jsStartsWith f "g-"))).2 = []
        · have : (copyLoop fs1 sd td
              (files.filter (fun f => jsStartsWith f "g-"))).2.isEmpty = true := by
            rw [herr]; rfl
          simp [copyGlobalRulesFiles, hx, hmk, hrd, hfil2, this, herr]
        · have : (copyLoop fs1 sd td
              (files.filter (fun f => jsStartsWith f "g-"))).2.isEmpty = false := by
            cases hempty : (copyLoop fs1 sd td
                (files.filter (fun f => jsStartsWith f "g-"))).2 with
            | nil => exact absurd hempty herr
            | cons a as => rfl
          simp [copyGlobalRulesFiles, hx, hmk, hrd, hfil2, this, herr]

/-- Witness for C1 at a concrete input: on `fsB` the copy of `g-a.mdc` fails
(the target already holds a directory of that name), the error is recorded
with the expected message, the loop continues with `g-b.mdc`, and the whole
operation returns failure carrying exactly the accumulated list. -/
theorem C1_witness :
    copyLoop fsB ["global"] ["proj", ".cursor", "rules"]
        ["g-a.mdc", "g-b.mdc"] =
      ((copyLoop fsB ["global"] ["proj", ".cursor", "rules"] ["g-b.mdc"]).1,
        ⟨.OPERATION_ERROR,
          "Failed to copy g-a.mdc: EISDIR: illegal operation on a directory"⟩ ::
          (copyLoop fsB ["global"] ["proj", ".cursor", "rules"]
            ["g-b.mdc"]).2) ∧
    copyGlobalRulesFiles fsB ["global"] ["proj", ".cursor", "rules"] =
      ((copyLoop fsB ["global"] ["proj", ".cursor", "rules"]
          ["g-a.mdc", "g-b.mdc"]).1,
        if (copyLoop fsB ["global"] ["proj", ".cursor", "rules"]
            ["g-a.mdc", "g-b.mdc"]).2 = []
        then GlobalRulesResponse.success
        else .failed (copyLoop fsB ["global"] ["proj", ".cursor", "rules"]
          ["g-a.mdc", "g-b.mdc"]).2) :=
  ⟨(C1_partial_failure_batch ["global"] ["proj", ".cursor", "rules"]).1 fsB
      "g-a.mdc" ["g-b.mdc"] "EISDIR: illegal operation on a directory" rfl,
    (C1_partial_failure_batch ["global"] ["proj", ".cursor", "rules"]).2 fsB
      fsB ["g-a.mdc", "g-b.mdc"] rfl rfl rfl (by decide)⟩

/-- Claim C2: a successful synchronization copies exactly the matching
regular files: afterwards, every source entry named with prefix `g-` that is
a regular file exists in the target under the same name with byte-identical
content (overwriting any previous target file of that name), and the target
content at every non-matching name is unchanged; moreover `loadGlobalRules`
synchronizes from the configured global directory into
`{path}/.cursor/rules`, and `saveGlobalRules` swaps these roles.  The
hypothesis that the source listing has no duplicate names holds in every
real directory. -/
theorem C2_success_copies_exactly_matches :
    (∀ (fs fs1 fs' : Entry) (sd td : Path) (cs : List (String × Entry)),
      mkdirRec fs td = .ok fs1 →
      lookup fs1 sd = some (.dir cs) →
      (cs.map Prod.fst).Nodup →
      copyGlobalRulesFiles fs sd td = (fs', .success) →
      (∀ f c, jsStartsWith f "g-" = true →
        lookupFile fs' (sd ++ [f]) = some c →
        lookupFile fs' (td ++ [f]) = some c) ∧
      (∀ f, jsStartsWith f "g-" = false →
        lookupFile fs' (td ++ [f]) = lookupFile fs (td ++ [f]))) ∧
    (∀ (st : ServerState) (fs : Entry) (store : ConfigStore) (p d : String)
      (cfg : Config), loadConfig fs store = .ok cfg →
      cfg.globalRulesSourceDir = some d →
      handleLoadGlobalRules st fs store p =
        (st, (copyGlobalRulesFiles fs (toPath d)
            (toPath p ++ [".cursor", "rules"])).1,
          (copyGlobalRulesFiles fs (toPath d)
            (toPath p ++ [".cursor", "rules"])).2) ∧
      handleSaveGlobalRules st fs store p =
        (st, (copyGlobalRulesFiles fs (toPath p ++ [".cursor", "rules"])
            (toPath d)).1,
          (copyGlobalRulesFiles fs (toPath p ++ [".cursor", "rules"])
            (toPath d)).2)) := by
  constructor
  · intro fs fs1 fs' sd td cs hmk hls hnd hrun
    obtain ⟨fs1', files, hsrc, hmk', hrd, hcase⟩ := copy_success_inv hrun
    rw [hmk] at hmk'
    obtain rfl : fs1 = fs1' := Except.ok.inj hmk'
    have hfiles : files = cs.map Prod.fst := by
      unfold readdir at hrd
      rw [hls] at hrd
      simpa using hrd.symm
    subst hfiles
    have hMnd : ((cs.map Prod.fst).filter
        (fun f => jsStartsWith f "g-")).Nodup := hnd.filter _
    rcases hcase with ⟨hMe, rfl⟩ | hloop
    · constructor
      · intro f c hf hsf
        rw [lookupFile_append_singleton fs' sd f cs hls] at hsf
        cases hc : lookupChild cs f with
        | none => rw [hc] at hsf; simp at hsf
        | some e0 =>
            have hmem : f ∈ cs.map Prod.fst := lookupChild_mem cs f e0 hc
            have : f ∈ (cs.map Prod.fst).filter
                (fun f => jsStartsWith f "g-") :=
              List.mem_filter.mpr ⟨hmem, hf⟩
            rw [hMe] at this
            simp at this
      · intro f hf
        exact mkdirRec_lookupFile hmk (td ++ [f])
    · have hsub : ∀ g ∈ (cs.map Prod.fst).filter
          (fun f => jsStartsWith f "g-"), g ∈ cs.map Prod.fst :=
        fun g hg => (List.mem_filter.mp hg).1
      obtain ⟨cs2, hls2, hn2⟩ := copyLoop_dirNames sd td
        ((cs.map Prod.fst).filter (fun f => jsStartsWith f "g-")) fs1 cs hls
        (fun _ g hg => hsub g hg)
      rw [hloop] at hls2
      constructor
      · intro f c hf hsf
        have hsf2 := hsf
        rw [lookupFile_append_singleton fs' sd f cs2 hls2] at hsf2
        cases hc : lookupChild cs2 f with
        | none => rw [hc] at hsf2; simp at hsf2
        | some e0 =>
            have hmem2 : f ∈ cs2.map Prod.fst := lookupChild_mem cs2 f e0 hc
            rw [hn2] at hmem2
            have hfM : f ∈ (cs.map Prod.fst).filter
                (fun f => jsStartsWith f "g-") :=
              List.mem_filter.mpr ⟨hmem2, hf⟩
            have := copyLoop_copies sd td
              ((cs.map Prod.fst).filter (fun f => jsStartsWith f "g-")) hMnd
              fs1 (by rw [hloop]) f hfM c (by rw [hloop]; exact hsf)
            rw [hloop] at this
            exact this
      · intro f hf
        have hframe : lookupFile (copyLoop fs1 sd td
            ((cs.map Prod.fst).filter (fun f => jsStartsWith f "g-"))).1
              (td ++ [f]) = lookupFile fs1 (td ++ [f]) := by
          refine copyLoop_frame sd td _ fs1 (td ++ [f]) ?_
          intro g hg heq
          obtain ⟨-, hfg⟩ := append_singleton_inj heq
          rw [hfg] at hf
          rw [(List.mem_filter.mp hg).2] at hf
          exact Bool.noConfusion hf
        rw [hloop] at hframe
        rw [hframe]
        exact mkdirRec_lookupFile hmk (td ++ [f])
  · intro st fs store p d cfg hlc hd
    constructor
    · rw [handleLoad_eq_ok hlc, hd]
      rfl
    · rw [handleSave_eq_ok hlc, hd]
      rfl

/-- Witness for C2 at a concrete input: loading from `fsA` succeeds, and the
matching file `g-a.mdc` ends up in `proj/.cursor/rules` with its source
bytes, while the non-matching name `other.mdc` is unchanged (absent) in the
target. -/
theorem C2_witness :
    lookupFile
        (copyGlobalRulesFiles fsA ["global"] ["proj", ".cursor", "rules"]).1
        (["proj", ".cursor", "rules"] ++ ["g-a.mdc"]) = some [65] ∧
    lookupFile
        (copyGlobalRulesFiles fsA ["global"] ["proj", ".cursor", "rules"]).1
        (["proj", ".cursor", "rules"] ++ ["other.mdc"]) =
      lookupFile fsA (["proj", ".cursor", "rules"] ++ ["other.mdc"]) :=
  ⟨(C2_success_copies_exactly_matches.1 fsA fsA1
      (copyGlobalRulesFiles fsA ["global"] ["proj", ".cursor", "rules"]).1
      ["global"] ["proj", ".cursor", "rules"]
      [("g-a.mdc", .file [65]), ("g-b.mdc", .file [66]),
        ("other.mdc", .file [67])]
      rfl rfl (by decide) rfl).1 "g-a.mdc" [65] (by decide) (by rfl),
    (C2_success_copies_exactly_matches.1 fsA fsA1
      (copyGlobalRulesFiles fsA ["global"] ["proj", ".cursor", "rules"]).1
      ["global"] ["proj", ".cursor", "rules"]
      [("g-a.mdc", .file [65]), ("g-b.mdc", .file [66]),
        ("other.mdc", .file [67])]
      rfl rfl (by decide) rfl).2 "other.mdc" (by decide)⟩

theorem mkdirRec_ok_not_file {fs fs2 : Entry} {p : Path} {c : Bytes}
    (h : mkdirRec fs p = .ok fs2) (hl : lookup fs p = some (.file c)) :
    False := by
  induction p generalizing fs fs2 with
  | nil =>
      cases fs with
      | file c0 => simp [mkdirRec] at h
      | dir cs => simp [lookup] at hl
  | cons n p' ih =>
      cases fs with
      | file c0 => simp [mkdirRec] at h
      | dir cs =>
          obtain ⟨child2, hm, rfl⟩ := mkdirRec_cons_inv h
          rw [lookup_dir_cons] at hl
          cases hc : lookupChild cs n with
          | none => rw [hc] at hl; simp at hl
          | some child =>
              rw [hc] at hl
              simp only [Option.some_bind] at hl
              rw [hc] at hm
              simp only [Option.getD_some] at hm
              exact ih hm hl

theorem copy_same_dir_id (fs : Entry) (sd : Path) :
    (copyGlobalRulesFiles fs sd sd).1 = fs := by
  cases hx : lookup fs sd with
  | none => simp [copyGlobalRulesFiles, hx]
  | some e =>
      cases e with
      | file c =>
          cases hmk : mkdirRec fs sd with
          | error msg => simp [copyGlobalRulesFiles, hx, hmk]
          | ok fs1 => exact absurd hmk (fun hm => mkdirRec_ok_not_file hm hx)
      | dir cs =>
          have hmk : mkdirRec fs sd = .ok fs :=
            allDirs_mkdirRec_id (lookup_dir_allDirs hx)
          have hrd : readdir fs sd = .ok (cs.map Prod.fst) := by
            unfold readdir; rw [hx]
          by_cases hfil : ((cs.map Prod.fst).filter
              (fun f => jsStartsWith f "g-")).isEmpty
          · simp [copyGlobalRulesFiles, hx, hmk, hrd, hfil]
          · have hsame := copyLoop_same_dir sd
              ((cs.map Prod.fst).filter (fun f => jsStartsWith f "g-")) fs
            by_cases he : (copyLoop fs sd sd ((cs.map Prod.fst).filter
                (fun f => jsStartsWith f "g-"))).2.isEmpty
            · simp [copyGlobalRulesFiles, hx, hmk, hrd, hfil, he, hsame]
            · simp [copyGlobalRulesFiles, hx, hmk, hrd, hfil, he, hsame]

theorem copy_result_frame_matches (fs fs1 : Entry) (sd td : Path)
    (files : List String)
    (hmk : mkdirRec fs td = .ok fs1)
    (hrd : readdir fs1 sd = .ok files)
    (q : Path)
    (hq : ∀ f ∈ files.filter (fun f => jsStartsWith f "g-"), q ≠ td ++ [f]) :
    lookupFile (copyGlobalRulesFiles fs sd td).1 q = lookupFile fs q := by
  cases hx : lookup fs sd with
  | none => simp [copyGlobalRulesFiles, hx]
  | some e =>
      have h1 := mkdirRec_lookupFile hmk q
      by_cases hfil : (files.filter (fun f => jsStartsWith f "g-")).isEmpty
      · simpa [copyGlobalRulesFiles, hx, hmk, hrd, hfil] using h1
      · have h2 : lookupFile (copyLoop fs1 sd td
            (files.filter (fun f => jsStartsWith f "g-"))).1 q =
              lookupFile fs1 q :=
          copyLoop_frame sd td _ fs1 q hq
        by_cases he : (copyLoop fs1 sd td
            (files.filter (fun f => jsStartsWith f "g-"))).2.isEmpty
        · simpa [copyGlobalRulesFiles, hx, hmk, hrd, hfil, he, h1] using h2
        · simpa [copyGlobalRulesFiles, hx, hmk, hrd, hfil, he, h1] using h2

/-- Claim C7: a synchronization call never deletes or modifies the
source-side files, and never removes or alters pre-existing files in the
target directory whose names are not among the copied matching names: the
only file mutations are creating/overwriting files named like the copied
matches inside the target directory (directory creation aside, which
touches no file content).  Concretely, for a run whose post-`mkdir` source
listing is `files` with matches `files.filter (jsStartsWith · "g-")`:
(1) the content at every path that is not a match-named child of the target
directory is unchanged — including pre-existing `g-`-named target files not
among the matches; (2) no file is ever removed; (3) the content of every
immediate child of the source directory is unchanged. -/
theorem C7_frame_effects (fs fs1 : Entry) (sd td : Path)
    (files : List String)
    (hmk : mkdirRec fs td = .ok fs1)
    (hrd : readdir fs1 sd = .ok files) :
    (∀ q, (∀ f ∈ files.filter (fun f => jsStartsWith f "g-"),
        q ≠ td ++ [f]) →
      lookupFile (copyGlobalRulesFiles fs sd td).1 q = lookupFile fs q) ∧
    (∀ q c, lookupFile fs q = some c →
      ∃ c2, lookupFile (copyGlobalRulesFiles fs sd td).1 q = some c2) ∧
    (∀ f, lookupFile (copyGlobalRulesFiles fs sd td).1 (sd ++ [f]) =
      lookupFile fs (sd ++ [f])) := by
  refine ⟨fun q hq => copy_result_frame_matches fs fs1 sd td files hmk hrd q hq,
    fun q c hq => copy_never_removes fs sd td q c hq, ?_⟩
  intro f
  by_cases hst : td = sd
  · rw [hst, copy_same_dir_id]
  · refine copy_result_frame_matches fs fs1 sd td files hmk hrd (sd ++ [f]) ?_
    intro g _ heq
    obtain ⟨hsd, -⟩ := append_singleton_inj heq
    exact hst hsd.symm

/-- Witness for C7 at a concrete input: synchronizing `fsD` leaves the
pre-existing target file `g-z.mdc` — a `g-`-named file that is not among
the copied matches — byte-identical, leaves the non-matching target path
`other.mdc` unchanged, keeps the source file `g-a.mdc` in existence, and
leaves the source child contents untouched. -/
theorem C7_witness :
    lookupFile (copyGlobalRulesFiles fsD ["global"]
        ["proj", ".cursor", "rules"]).1
        ["proj", ".cursor", "rules", "g-z.mdc"] =
      lookupFile fsD ["proj", ".cursor", "rules", "g-z.mdc"] ∧
    lookupFile (copyGlobalRulesFiles fsD ["global"]
        ["proj", ".cursor", "rules"]).1
        ["proj", ".cursor", "rules", "other.mdc"] =
      lookupFile fsD ["proj", ".cursor", "rules", "other.mdc"] ∧
    (∃ c2, lookupFile (copyGlobalRulesFiles fsD ["global"]
        ["proj", ".cursor", "rules"]).1 ["global", "g-a.mdc"] = some c2) ∧
    lookupFile (copyGlobalRulesFiles fsD ["global"]
        ["proj", ".cursor", "rules"]).1 (["global"] ++ ["g-a.mdc"]) =
      lookupFile fsD (["global"] ++ ["g-a.mdc"]) :=
  ⟨(C7_frame_effects fsD fsD ["global"] ["proj", ".cursor", "rules"]
      ["g-a.mdc"] rfl rfl).1 ["proj", ".cursor", "rules", "g-z.mdc"]
      (by decide),
    (C7_frame_effects fsD fsD ["global"] ["proj", ".cursor", "rules"]
      ["g-a.mdc"] rfl rfl).1 ["proj", ".cursor", "rules", "other.mdc"]
      (by decide),
    (C7_frame_effects fsD fsD ["global"] ["proj", ".cursor", "rules"]
      ["g-a.mdc"] rfl rfl).2.1 ["global", "g-a.mdc"] [65] (by rfl),
    (C7_frame_effects fsD fsD ["global"] ["proj", ".cursor", "rules"]
      ["g-a.mdc"] rfl rfl).2.2 "g-a.mdc"⟩

theorem copy_idempotent_success (fs fs' fs1 : Entry) (sd td : Path)
    (files : List String)
    (hrun : copyGlobalRulesFiles fs sd td = (fs', .success))
    (hmk : mkdirRec fs td = .ok fs1)
    (hrd : readdir fs1 sd = .ok files)
    (hnd : files.Nodup) :
    copyGlobalRulesFiles fs' sd td = (fs', .success) := by
  obtain ⟨fs1', files', hsrc, hmk', hrd', hcase⟩ := copy_success_inv hrun
  rw [hmk] at hmk'
  obtain rfl : fs1 = fs1' := Except.ok.inj hmk'
  rw [hrd] at hrd'
  obtain rfl : files = files' := Except.ok.inj hrd'
  obtain ⟨cs1, hls1, hfiles⟩ := readdir_ok_inv hrd
  rcases hcase with ⟨hMe, hba⟩ | hloop
  · rw [hba]
    have hmk1 : mkdirRec fs1 td = .ok fs1 :=
      allDirs_mkdirRec_id (mkdirRec_allDirs hmk)
    simp [copyGlobalRulesFiles, hls1, hmk1, hrd, hMe]
  · have hloop1 : (copyLoop fs1 sd td
        (files.filter (fun f => jsStartsWith f "g-"))).1 = fs' := by
      rw [hloop]
    have hMnd : (files.filter (fun f => jsStartsWith f "g-")).Nodup :=
      hnd.filter _
    obtain ⟨cs2, hls2, hn2⟩ := copyLoop_dirNames sd td
      (files.filter (fun f => jsStartsWith f "g-")) fs1 cs1 hls1
      (fun _ g hg => hfiles ▸ (List.mem_filter.mp hg).1)
    rw [hloop1] at hls2
    have had : allDirs fs' td = true := by
      have := copyLoop_allDirs sd td
        (files.filter (fun f => jsStartsWith f "g-")) fs1 (mkdirRec_allDirs hmk)
      rw [hloop1] at this
      exact this
    have hmk2 : mkdirRec fs' td = .ok fs' := allDirs_mkdirRec_id had
    have hnames : cs2.map Prod.fst = files := by rw [hn2, ← hfiles]
    have hrd2 : readdir fs' sd = .ok files := by
      unfold readdir
      rw [hls2]
      exact congrArg Except.ok hnames
    have hstep : ∀ g ∈ files.filter (fun f => jsStartsWith f "g-"),
        copyStep fs' sd td g = .ok fs' := by
      intro g hgM
      have hgfiles : g ∈ files := (List.mem_filter.mp hgM).1
      have hgmem : g ∈ cs2.map Prod.fst := by rw [hnames]; exact hgfiles
      obtain ⟨e, he⟩ := Option.isSome_iff_exists.mp
        (mem_lookupChild_isSome cs2 g hgmem)
      have hlg : lookup fs' (sd ++ [g]) = some e := by
        rw [lookup_append_singleton hls2, he]
      cases e with
      | dir cs0 => exact copyStep_skip hlg
      | file c =>
          have hsf : lookupFile fs' (sd ++ [g]) = some c := by
            unfold lookupFile
            rw [hlg]
            rfl
          have htf : lookupFile fs' (td ++ [g]) = some c := by
            have := copyLoop_copies sd td
              (files.filter (fun f => jsStartsWith f "g-")) hMnd fs1
              (by rw [hloop]) g hgM c (by rw [hloop]; exact hsf)
            rw [hloop] at this
            exact this
          have hwself : writeFile fs' (td ++ [g]) c = .ok fs' :=
            writeFile_self_append htf
          unfold copyStep stat
          rw [hlg]
          simp [Entry.isFile, copyFile, hlg, hwself]
    have hloop2 : copyLoop fs' sd td
        (files.filter (fun f => jsStartsWith f "g-")) = (fs', []) :=
      copyLoop_fixed sd td _ fs' hstep
    by_cases hMe2 : (files.filter (fun f => jsStartsWith f "g-")).isEmpty
    · simp [copyGlobalRulesFiles, hls2, hmk2, hrd2, hMe2]
    · simp [copyGlobalRulesFiles, hls2, hmk2, hrd2, hMe2, hloop2]

/-- Claim C8: for every configuration and filesystem state on which an
operation succeeds, invoking the same operation again immediately afterwards
also returns `success:true` and leaves the final filesystem (hence all file
contents) identical — the second run overwrites each copied file with the
same bytes.  Stated for the synchronizer core and for both façade
operations; the no-duplicate-names hypothesis on the source listing holds in
every real directory. -/
theorem C8_idempotent :
    (∀ (fs fs' fs1 : Entry) (sd td : Path) (files : List String),
      copyGlobalRulesFiles fs sd td = (fs', .success) →
      mkdirRec fs td = .ok fs1 →
      readdir fs1 sd = .ok files →
      files.Nodup →
      copyGlobalRulesFiles fs' sd td = (fs', .success)) ∧
    (∀ (st : ServerState) (fs fs' fs1 : Entry) (store : ConfigStore)
        (p : String) (files : List String) (cfg : Config),
      handleLoadGlobalRules st fs store p = (st, fs', .success) →
      loadConfig fs store = .ok cfg →
      mkdirRec fs (toPath p ++ [".cursor", "rules"]) = .ok fs1 →
      readdir fs1 (toPath cfg.globalRulesSourceDir.get!) = .ok files →
      files.Nodup →
      handleLoadGlobalRules st fs' store p = (st, fs', .success)) ∧
    (∀ (st : ServerState) (fs fs' fs1 : Entry) (store : ConfigStore)
        (p : String) (files : List String) (cfg : Config),
      handleSaveGlobalRules st fs store p = (st, fs', .success) →
      loadConfig fs store = .ok cfg →
      mkdirRec fs (toPath cfg.globalRulesSourceDir.get!) = .ok fs1 →
      readdir fs1 (toPath p ++ [".cursor", "rules"]) = .ok files →
      files.Nodup →
      handleSaveGlobalRules st fs' store p = (st, fs', .success)) := by
  refine ⟨copy_idempotent_success, ?_, ?_⟩
  · intro st fs fs' fs1 store p files cfg hload hlc hmk hrd hnd
    obtain ⟨d, hstore, hcfg, htrim, hdir⟩ := loadConfig_ok_inv hlc
    have hget : cfg.globalRulesSourceDir.get! = d := by rw [hcfg]; rfl
    rw [handleLoad_eq_ok hlc, hget] at hload
    rw [hget] at hrd
    have hrun : copyGlobalRulesFiles fs (toPath d)
        (toPath p ++ [".cursor", "rules"]) = (fs', .success) :=
      Prod.ext (congrArg (fun t => t.2.1) hload)
        (congrArg (fun t => t.2.2) hload)
    have hdir' : (lookup fs' (toPath d)).isSome := by
      have := copy_preserves_isSome fs (toPath d)
        (toPath p ++ [".cursor", "rules"]) (toPath d) hdir
      rw [hrun] at this
      exact this
    have hlc2 : loadConfig fs' store = .ok cfg := by
      rw [hstore, hcfg]
      exact loadConfig_ok_of_checks htrim hdir'
    rw [handleLoad_eq_ok hlc2, hget,
      copy_idempotent_success fs fs' fs1 (toPath d)
        (toPath p ++ [".cursor", "rules"]) files hrun hmk hrd hnd]
  · intro st fs fs' fs1 store p files cfg hsave hlc hmk hrd hnd
    obtain ⟨d, hstore, hcfg, htrim, hdir⟩ := loadConfig_ok_inv hlc
    have hget : cfg.globalRulesSourceDir.get! = d := by rw [hcfg]; rfl
    rw [handleSave_eq_ok hlc, hget] at hsave
    rw [hget] at hmk
    have hrun : copyGlobalRulesFiles fs (toPath p ++ [".cursor", "rules"])
        (toPath d) = (fs', .success) :=
      Prod.ext (congrArg (fun t => t.2.1) hsave)
        (congrArg (fun t => t.2.2) hsave)
    have hdir' : (lookup fs' (toPath d)).isSome := by
      have := copy_preserves_isSome fs (toPath p ++ [".cursor", "rules"])
        (toPath d) (toPath d) hdir
      rw [hrun] at this
      exact this
    have hlc2 : loadConfig fs' store = .ok cfg := by
      rw [hstore, hcfg]
      exact loadConfig_ok_of_checks htrim hdir'
    rw [handleSave_eq_ok hlc2, hget,
      copy_idempotent_success fs fs' fs1 (toPath p ++ [".cursor", "rules"])
        (toPath d) files hrun hmk hrd hnd]

/-- Witness for C8 at a concrete input: running the synchronizer on `fsA`
succeeds, and running it again on the resulting filesystem succeeds and
leaves the filesystem identical. -/
theorem C8_witness :
    copyGlobalRulesFiles
        (copyGlobalRulesFiles fsA ["global"] ["proj", ".cursor", "rules"]).1
        ["global"] ["proj", ".cursor", "rules"] =
      ((copyGlobalRulesFiles fsA ["global"] ["proj", ".cursor", "rules"]).1,
        .success) :=
  C8_idempotent.1 fsA
    (copyGlobalRulesFiles fsA ["global"] ["proj", ".cursor", "rules"]).1
    fsA1 ["global"] ["proj", ".cursor", "rules"]
    ["g-a.mdc", "g-b.mdc", "other.mdc"]
    (by rfl) (by rfl) (by rfl) (by decide)

/-- Counterexample to claim C10 at a concrete input: a first invocation with
a valid configuration store succeeds, yet a second invocation on the
resulting server state and filesystem, with the store now missing, fails
with `Configuration file ../config.json not found`.  If the serving object
reused a per-process cached configuration instead of re-reading the external
store, the second invocation would not report the store as missing. -/
theorem C10_counterexample :
    (handleLoadGlobalRules initialServerState fsA (.parsed (some "global"))
        "proj").2.2 = .success ∧
    handleLoadGlobalRules
        (handleLoadGlobalRules initialServerState fsA
          (.parsed (some "global")) "proj").1
        (handleLoadGlobalRules initialServerState fsA
          (.parsed (some "global")) "proj").2.1
        .missing "proj" =
      ((handleLoadGlobalRules initialServerState fsA
          (.parsed (some "global")) "proj").1,
        (handleLoadGlobalRules initialServerState fsA
          (.parsed (some "global")) "proj").2.1,
        .failed [⟨.CONFIG_PARSING_ERROR,
          "Configuration file ../config.json not found"⟩]) := by
  constructor <;> rfl

/-- Claim C10 (amended): the serving object declares a per-process `config`
field initialized empty, but never populates or reads it afterwards: every
invocation returns the server state unchanged, its response and filesystem
effect are independent of the server state, and the current configuration
store is consulted afresh on every invocation (no caching occurs). -/
theorem C10_amended_no_caching (st st' : ServerState) (fs : Entry)
    (store : ConfigStore) (p : String) :
    (handleLoadGlobalRules st fs store p).1 = st ∧
    (handleSaveGlobalRules st fs store p).1 = st ∧
    (handleLoadGlobalRules st fs store p).2 =
      (handleLoadGlobalRules st' fs store p).2 ∧
    (handleSaveGlobalRules st fs store p).2 =
      (handleSaveGlobalRules st' fs store p).2 ∧
    initialServerState.config = ⟨none⟩ := by
  refine ⟨?_, ?_, ?_, ?_, rfl⟩
  · unfold handleLoadGlobalRules
    cases loadConfig fs store <;> rfl
  · unfold handleSaveGlobalRules
    cases loadConfig fs store <;> rfl
  · unfold handleLoadGlobalRules
    cases loadConfig fs store <;> rfl
  · unfold handleSaveGlobalRules
    cases loadConfig fs store <;> rfl

end GlobalMdc
